import Mathlib

/-!
Verification of the SurvivorPool elimination reconciliation engine.

This file gives a shallow embedding of the core of the repository:
the Game/Pick/PickResult data model (src/api/models.py), the
elimination engine (src/jobs/update_scores.py: update_pick_results,
finalize_stuck_games, eliminate_missing_picks, process_all_eliminations,
upsert_games, merge_odds_with_games), the advisory-lock coordinator
(src/api/job_locks.py), and the transaction skeletons of the two job
entry points (ScoreUpdater.run and
src/jobs/sheets_ingestion_shared.py: ingest_players_and_picks).

Conventions of the embedding:
- SQLAlchemy tables become Lean lists of structures; `query(...).first()`
  becomes `List.find?`, and mutating the fetched ORM object becomes
  replacing the first row matched by the same predicate (`updateFirst`).
- Times (`datetime`) are integers counting seconds; the source condition
  `(now - kickoff).total_seconds() / 3600 > 4` is the exact real
  inequality `now - kickoff > 14400`.
- Print statements and the integer "updated counts" returned by the jobs
  are dropped: every claim below is about the database state.
- Exceptions thrown by collaborators mid-run are modelled by an explicit
  optional injection point carrying the session's pending state at the
  moment the exception fires.
-/

namespace SurvivorPool

/-! ## List preliminaries -/

/-- Replace the first element satisfying `P` by its image under `f`
(the shallow embedding of mutating the object returned by
`query(...).filter(P).first()`). -/
def updateFirst (P : α → Bool) (f : α → α) : List α → List α
  | [] => []
  | x :: xs => if P x then f x :: xs else x :: updateFirst P f xs

/-- Insert into an ascending list (used to model Python's `sorted`). -/
def insertAsc (x : Int) : List Int → List Int
  | [] => [x]
  | y :: ys => if x ≤ y then x :: y :: ys else y :: insertAsc x ys

/-- Ascending sort of a list of integers, modelling Python's `sorted`. -/
def sortAsc (l : List Int) : List Int := l.foldr insertAsc []

/-- The integer interval `[lo, hi)`, modelling Python's `range(lo, hi)`. -/
def rangeInt (lo hi : Int) : List Int :=
  (List.range (hi - lo).toNat).map (fun i : Nat => lo + (i : Int))

/-! ## Data model (src/api/models.py) -/

/-- Game status as delivered by the score feed. -/
inductive GStatus where
  | pre
  | inProgress
  | final
deriving DecidableEq, Repr

/-- A row of the `games` table.  `kickoff` is in seconds; scores, winner and
the odds fields are nullable exactly as in the schema.  The numeric value of
`point_spread` (a float in the schema) is irrelevant to the logic, which only
tests it against NULL, so it is carried as an integer. -/
structure Game where
  game_id : String
  season : Int
  week : Int
  kickoff : Int
  home_team : String
  away_team : String
  status : GStatus
  home_score : Option Int
  away_score : Option Int
  winner_abbr : Option String
  point_spread : Option Int
  favorite_team : Option String
deriving DecidableEq, Repr

/-- A row of the `picks` table; `team_abbr = none` is the auto-elimination
sentinel. -/
structure Pick where
  pick_id : Nat
  player_id : Nat
  season : Int
  week : Int
  team_abbr : Option String
  source : String
deriving DecidableEq, Repr

/-- A row of the `pick_results` table (primary key `pick_id`). -/
structure PickResult where
  pick_id : Nat
  game_id : Option String
  is_valid : Bool
  is_locked : Bool
  survived : Option Bool
deriving DecidableEq, Repr

/-- The tables the elimination engine reads and writes.  `next_pick_id`
models the autoincrement primary-key sequence handed out by `db.flush()`. -/
structure DB where
  games : List Game
  picks : List Pick
  pick_results : List PickResult
  next_pick_id : Nat
deriving DecidableEq, Repr

/-! ## Elimination engine (src/jobs/update_scores.py) -/

/-- The match predicate of `update_pick_results`: a game of the pick's
season and week whose home or away team is the picked team. -/
def gameMatchesPick (p : Pick) (g : Game) : Bool :=
  g.season == p.season && g.week == p.week &&
    (some g.home_team == p.team_abbr || some g.away_team == p.team_abbr)

/-- A freshly constructed `PickResult(pick_id=...)` with the schema
defaults (`is_valid=True`, `is_locked=False`, `survived=NULL`). -/
def newPickResult (pid : Nat) : PickResult :=
  { pick_id := pid, game_id := none, is_valid := true, is_locked := false, survived := none }

/-- The completion test of `update_pick_results` (lines 248-255): final
status, or both scores present and kickoff more than 4 hours ago. -/
def is_game_complete (now : Int) (g : Game) : Bool :=
  if decide (g.status = GStatus.final) then true
  else if g.home_score.isSome && g.away_score.isSome then
    decide (now - g.kickoff > 14400)
  else false

/-- Winner derivation of `update_pick_results` (lines 264-269): only when
the winner is unset and both scores are present; a tie leaves it unset. -/
def deriveWinner (g : Game) : Game :=
  match g.winner_abbr, g.home_score, g.away_score with
  | none, some hs, some aws =>
    if hs > aws then { g with winner_abbr := some g.home_team }
    else if aws > hs then { g with winner_abbr := some g.away_team }
    else g
  | _, _, _ => g

/-- The game mutation performed on a completed game (lines 257-270): force
`status=final`, then derive the winner. -/
def stepGame (now : Int) (g : Game) : Game :=
  if is_game_complete now g then deriveWinner { g with status := GStatus.final } else g

/-- The survival assignment shared by lines 277-282 and 339-344:
`pick.team_abbr == winner` when a winner is set, `False` on a tie. -/
def survivalOf (team : Option String) (g : Game) : Bool :=
  match g.winner_abbr with
  | some _ => team == g.winner_abbr
  | none => false

/-- Lines 233-244 of `update_pick_results`: set the result's game link,
then lock it when kickoff has passed. -/
def linkLockStep (now : Int) (g : Game) (pr : PickResult) : PickResult :=
  if decide (now ≥ g.kickoff) && !pr.is_locked then
    { pr with game_id := some g.game_id, is_locked := true }
  else { pr with game_id := some g.game_id }

/-- Lines 272-285 of `update_pick_results`: once the game is complete and
both scores are present, recompute `survived` against the (just
finalized) game. -/
def surviveStep (now : Int) (team : Option String) (g : Game) (pr : PickResult) : PickResult :=
  if is_game_complete now g && (stepGame now g).home_score.isSome &&
      (stepGame now g).away_score.isSome then
    { pr with survived := some (survivalOf team (stepGame now g)) }
  else pr

/-- The body of the per-pick loop of `update_pick_results` (lines 211-285):
match a game, get or create the result row, link it, lock at kickoff,
finalize the game if complete, and recompute survival. -/
def processPick (now : Int) (db : DB) (p : Pick) : DB :=
  match db.games.find? (gameMatchesPick p) with
  | none => db
  | some g =>
    let found := db.pick_results.find? (fun r => r.pick_id == p.pick_id)
    let pr3 := surviveStep now p.team_abbr g
      (linkLockStep now g (found.getD (newPickResult p.pick_id)))
    { db with
      games := updateFirst (fun x => x.game_id == g.game_id) (fun _ => stepGame now g) db.games
      pick_results := match found with
        | some _ => updateFirst (fun r => r.pick_id == p.pick_id) (fun _ => pr3) db.pick_results
        | none => db.pick_results ++ [pr3] }

/-- `ScoreUpdater.update_pick_results` for one week: process every pick of
the season and week that has a non-null team. -/
def update_pick_results (season : Int) (now : Int) (db : DB) (week : Int) : DB :=
  let weekPicks := db.picks.filter fun p =>
    p.season == season && p.week == week && p.team_abbr.isSome
  weekPicks.foldl (processPick now) db

/-- The query filter of `finalize_stuck_games` (lines 294-300): this season,
not final, both scores present.  (`kickoff` is non-nullable in the schema,
so the `kickoff.isnot(None)` conjunct is always true.) -/
def stuckFilter (season : Int) (g : Game) : Bool :=
  g.season == season && !(decide (g.status = GStatus.final)) &&
    g.home_score.isSome && g.away_score.isSome

/-- Winner derivation of `finalize_stuck_games` (lines 317-322): the scores
are read unguarded there, being non-null by the query filter. -/
def deriveWinnerStuck (g : Game) : Game :=
  match g.winner_abbr with
  | none =>
    match g.home_score, g.away_score with
    | some hs, some aws =>
      if hs > aws then { g with winner_abbr := some g.home_team }
      else if aws > hs then { g with winner_abbr := some g.away_team }
      else g
    | _, _ => g
  | some _ => g

/-- The body of the per-game loop of `finalize_stuck_games` (lines 304-347):
if kickoff was more than 4 hours ago, force the game final, derive the
winner, and re-propagate survival to the existing result rows of picks on
either team. -/
def finalizeStuckGame (now : Int) (db : DB) (g : Game) : DB :=
  if decide (now - g.kickoff > 14400) then
    let g1 := deriveWinnerStuck { g with status := GStatus.final }
    let db1 := { db with
      games := updateFirst (fun x => x.game_id == g.game_id) (fun _ => g1) db.games }
    let pcs := db1.picks.filter fun p =>
      p.season == g.season && p.week == g.week &&
        (p.team_abbr == some g.home_team || p.team_abbr == some g.away_team)
    pcs.foldl (fun d p =>
      match d.pick_results.find? (fun r => r.pick_id == p.pick_id) with
      | none => d
      | some pr =>
        { d with pick_results := (updateFirst (fun r => r.pick_id == p.pick_id)
            (fun _ => { pr with survived := some (survivalOf p.team_abbr g1) })
            d.pick_results) }) db1
  else db

/-- `ScoreUpdater.finalize_stuck_games`: scan all non-final games of the
season with both scores present and repair those whose kickoff was more
than 4 hours ago. -/
def finalize_stuck_games (season : Int) (now : Int) (db : DB) : DB :=
  (db.games.filter (stuckFilter season)).foldl (finalizeStuckGame now) db

/-- Whether `eliminate_missing_picks` treats the player as eliminated: some
pick of the season joined to a result row with `survived == False`
(lines 362-368). -/
def isEliminated (season : Int) (db : DB) (pid : Nat) : Bool :=
  db.picks.any fun p =>
    p.player_id == pid && p.season == season &&
      db.pick_results.any fun r => r.pick_id == p.pick_id && r.survived == some false

/-- Players with at least one pick this season (lines 371-374). -/
def isActive (season : Int) (db : DB) (pid : Nat) : Bool :=
  db.picks.any fun p => p.player_id == pid && p.season == season

/-- The running state of `eliminate_missing_picks`: the session plus the
mutated `alive_player_ids` set (a list with distinct members). -/
structure ElimState where
  db : DB
  alive : List Nat
deriving Repr

/-- The synthetic "No pick" row created by the auto-eliminator
(lines 439-446). -/
def syntheticPick (n : Nat) (pid : Nat) (season w : Int) : Pick :=
  { pick_id := n, player_id := pid, season := season, week := w, team_abbr := none,
    source := "auto_elimination" }

/-- The failed result attached to a synthetic pick (lines 449-457). -/
def syntheticResult (n : Nat) : PickResult :=
  { pick_id := n, game_id := none, is_valid := false, is_locked := true,
    survived := some false }

/-- The `players_with_picks` membership test of the auto-eliminator
(lines 400-407): any pick of the player for this season and week, the
null-team sentinel included. -/
def hasPickFor (season : Int) (db : DB) (pid : Nat) (w : Int) : Bool :=
  db.picks.any fun p => p.season == season && p.week == w && p.player_id == pid

/-- The `existing_no_pick` guard (lines 413-421). -/
def hasNullPickFor (season : Int) (db : DB) (pid : Nat) (w : Int) : Bool :=
  db.picks.any fun p =>
    p.player_id == pid && p.season == season && p.week == w && p.team_abbr == none

/-- The `last_pick` participation test (lines 426-433): the source fetches
the most recent pick of an earlier week and only checks it for existence. -/
def hasPriorPick (season : Int) (db : DB) (pid : Nat) (w : Int) : Bool :=
  db.picks.any fun p => p.player_id == pid && p.season == season && p.week < w

/-- The body of the per-player loop of `eliminate_missing_picks`
(lines 412-461): skip when a null-team pick for this player and week
already exists; otherwise, if the player has any earlier pick this season,
append the synthetic null-team pick and its invalid/locked/failed result,
and discard the player from the alive set. -/
def elimPlayerStep (season : Int) (w : Int) (st : ElimState) (pid : Nat) : ElimState :=
  if hasNullPickFor season st.db pid w then
    st
  else if hasPriorPick season st.db pid w then
    { db := { st.db with
        picks := st.db.picks ++ [syntheticPick st.db.next_pick_id pid season w]
        pick_results := st.db.pick_results ++ [syntheticResult st.db.next_pick_id]
        next_pick_id := st.db.next_pick_id + 1 },
      alive := st.alive.erase pid }
  else st

/-- The body of the per-week loop of `eliminate_missing_picks`
(lines 382-461): skip weeks with no games or a non-final game; otherwise
process every alive player without a pick for the week. -/
def elimWeekStep (season : Int) (st : ElimState) (w : Int) : ElimState :=
  let week_games := st.db.games.filter fun g => g.season == season && g.week == w
  if week_games.isEmpty then st
  else if !(week_games.all fun g => decide (g.status = GStatus.final)) then st
  else
    let withPicks := st.alive.filter fun pid => hasPickFor season st.db pid w
    let missing := st.alive.filter fun pid => !(withPicks.contains pid)
    missing.foldl (elimPlayerStep season w) st

/-- `ScoreUpdater.eliminate_missing_picks`: compute the alive set, then walk
every completed week strictly before the current one. -/
def eliminate_missing_picks (season : Int) (current_week : Int) (db : DB) : DB :=
  let active := ((db.picks.filter fun p => p.season == season).map (·.player_id)).dedup
  let alive0 := active.filter fun pid => !(isEliminated season db pid)
  ((rangeInt 1 current_week).foldl (elimWeekStep season) { db := db, alive := alive0 }).db

/-- The distinct weeks having picks this season, ascending (lines 45-46). -/
def allWeeks (season : Int) (db : DB) : List Int :=
  sortAsc ((db.picks.filter fun p => p.season == season).map (·.week)).dedup

/-- `ScoreUpdater.process_all_eliminations`: the full engine pass.  When no
week has picks the source returns early (lines 48-50), running neither the
stuck-game finalizer nor the auto-eliminator. -/
def process_all_eliminations (season : Int) (now : Int) (current_week : Int) (db : DB) : DB :=
  let all_weeks := allWeeks season db
  if all_weeks.isEmpty then db
  else
    let db1 := all_weeks.foldl (update_pick_results season now) db
    let db2 := finalize_stuck_games season now db1
    eliminate_missing_picks season current_week db2

/-! ## Game upserts and odds merge (lines 138-196) -/

/-- An entry of the odds feed mapping; both fields are nullable
(`odds.get(...)`). -/
structure OddsEntry where
  point_spread : Option Int
  favorite_team : Option String
deriving DecidableEq, Repr

/-- `ScoreUpdater.merge_odds_with_games`: look each game up under the key
`"{away}_at_{home}"` and, when present, copy both odds fields onto it. -/
def merge_odds_with_games (games : List Game) (odds_data : String → Option OddsEntry) :
    List Game :=
  games.map fun g =>
    match odds_data (g.away_team ++ "_at_" ++ g.home_team) with
    | some o => { g with point_spread := o.point_spread, favorite_team := o.favorite_team }
    | none => g

/-- The body of the `upsert_games` loop (lines 162-194): on conflict with
an existing `game_id`, overwrite status, scores and winner unconditionally
but the odds fields only when the incoming value is non-null; otherwise
insert the incoming row. -/
def upsert_game (db : DB) (gd : Game) : DB :=
  match db.games.find? (fun x => x.game_id == gd.game_id) with
  | some ex =>
    let ex1 := { ex with
      status := gd.status
      home_score := gd.home_score
      away_score := gd.away_score
      winner_abbr := gd.winner_abbr }
    let ex2 := if gd.point_spread.isSome then { ex1 with point_spread := gd.point_spread }
      else ex1
    let ex3 := if gd.favorite_team.isSome then { ex2 with favorite_team := gd.favorite_team }
      else ex2
    { db with games := updateFirst (fun x => x.game_id == gd.game_id) (fun _ => ex3) db.games }
  | none => { db with games := db.games ++ [gd] }

/-- `ScoreUpdater.upsert_games`. -/
def upsert_games (db : DB) (gs : List Game) : DB :=
  gs.foldl upsert_game db

/-! ## Lock coordinator (src/api/job_locks.py) -/

/-- Outcome of one `advisory_lock` entry: either the context body runs
(with the release in the `finally` block firing on scope exit when the
backend is PostgreSQL), or a `RuntimeError` is raised after waiting the
given number of seconds. -/
inductive LockAttempt where
  | acquired (releasedOnScopeExit : Bool)
  | raisedBusy (afterSeconds : Int)
deriving DecidableEq, Repr

/-- Model of `advisory_lock(db, lock_id, timeout_seconds)`: SQLite skips
locking entirely; otherwise the source issues a single, non-blocking
`pg_try_advisory_lock` and raises immediately when it returns false —
`timeout_seconds` is accepted but never consulted, so the elapsed wait on
failure is 0. -/
def advisory_lock (dialect : String) (lockFree : Bool) (timeout_seconds : Int) : LockAttempt :=
  if dialect == "sqlite" then .acquired false
  else if lockFree then .acquired (dialect == "postgresql")
  else .raisedBusy 0

/-! ## Orchestrator transaction skeletons -/

/-- A row of the `players` table. -/
structure PlayerRow where
  player_id : Nat
  display_name : String
deriving DecidableEq, Repr

/-- A row of the `job_meta` table. -/
structure JobMetaRow where
  job_name : String
  last_success_at : Option Int
  last_run_at : Option Int
  status : String
  message : String
deriving DecidableEq, Repr

/-- The full persistent state touched by the two jobs. -/
structure FullDB where
  core : DB
  players : List PlayerRow
  next_player_id : Nat
  job_meta : List JobMetaRow
deriving DecidableEq, Repr

/-- An SQLAlchemy session: the last committed state and the pending one. -/
structure Session where
  committed : FullDB
  current : FullDB
deriving DecidableEq, Repr

/-- `db.commit()`. -/
def commitS (s : Session) : Session :=
  { committed := s.current, current := s.current }

/-- `db.rollback()`. -/
def rollbackS (s : Session) : Session :=
  { committed := s.committed, current := s.committed }

/-- The field assignments of `update_job_meta` (lines 476-481). -/
def stampRow (now : Int) (status message : String) (r : JobMetaRow) : JobMetaRow :=
  { r with
    last_run_at := some now
    status := status
    message := message
    last_success_at := if status == "success" then some now else r.last_success_at }

/-- The get-or-create-then-stamp step of `update_job_meta` on the
`job_meta` table. -/
def bumpJobMeta (now : Int) (job_name status message : String) (rows : List JobMetaRow) :
    List JobMetaRow :=
  if rows.any (fun r => r.job_name == job_name) then
    updateFirst (fun r => r.job_name == job_name) (stampRow now status message) rows
  else
    rows ++ [stampRow now status message { job_name := job_name, last_success_at := none, last_run_at := none, status := "", message := "" }]

/-- `ScoreUpdater.update_job_meta` (lines 468-483): get or create the row,
stamp it, and commit. -/
def update_job_meta (now : Int) (job_name status message : String) (s : Session) : Session :=
  commitS { s with current := { s.current with
    job_meta := bumpJobMeta now job_name status message s.current.job_meta } }

/-- The status recorded for a job. -/
def jobStatus (d : FullDB) (job_name : String) : Option String :=
  (d.job_meta.find? fun r => r.job_name == job_name).map (·.status)

/-- `ScoreUpdater.run` (lines 79-134).  `lockHeld` says another session
holds the advisory lock (so `pg_try_advisory_lock` returns false and the
body never runs); `failMid = some partialCur` injects an exception in the
body at a moment when the session's pending state is `partialCur`, taking
the generic handler: rollback, then record the error. -/
def scoreUpdaterRun (dialect : String) (lockHeld : Bool) (season now current_week : Int)
    (games : List Game) (fetch_odds : Bool) (odds_data : String → Option OddsEntry)
    (failMid : Option FullDB) (d0 : FullDB) : Session × String :=
  let s0 : Session := { committed := d0, current := d0 }
  if !(dialect == "sqlite") && lockHeld then
    (update_job_meta now "update_scores" "skipped"
      "Skipped score update (lock busy)" s0, "skipped")
  else
    let s1 := update_job_meta now "update_scores" "running" "Starting score update" s0
    match failMid with
    | some partialCur =>
      let s2 := rollbackS { s1 with current := partialCur }
      (update_job_meta now "update_scores" "error" "Error during score update" s2, "error")
    | none =>
      let games_with_odds := if fetch_odds then merge_odds_with_games games odds_data
        else games
      let core1 := upsert_games s1.current.core games_with_odds
      let core2 := process_all_eliminations season now current_week core1
      let s2 := commitS { s1 with current := { s1.current with core := core2 } }
      (update_job_meta now "update_scores" "success" "Score update completed" s2, "success")

/-- The delete phase of `ingest_players_and_picks` (lines 106-107): delete
the season's picks (cascading to their results) and all players. -/
def deletePhase (season : Int) (d : FullDB) : FullDB :=
  let keepPicks := d.core.picks.filter fun p => !(p.season == season)
  let keptIds := keepPicks.map (·.pick_id)
  { d with
    players := [],
    core := { d.core with
      picks := keepPicks,
      pick_results := d.core.pick_results.filter fun r => keptIds.contains r.pick_id } }

/-- The rebuild loop body of `ingest_players_and_picks` (lines 115-151):
get or create the player, then create or update one pick per listed week. -/
def ingestPlayer (season : Int) (source_label : String) (d : FullDB)
    (entry : String × List (Int × String)) : FullDB :=
  let d1AndId : FullDB × Nat := match d.players.find? (fun pl => pl.display_name == entry.1) with
    | some pl => (d, pl.player_id)
    | none =>
      ({ d with
          players := d.players ++ [{ player_id := d.next_player_id, display_name := entry.1 }]
          next_player_id := d.next_player_id + 1 }, d.next_player_id)
  entry.2.foldl (fun d wkTm =>
    match d.core.picks.find? (fun p =>
        p.player_id == d1AndId.2 && p.season == season && p.week == wkTm.1) with
    | some ex =>
      if ex.team_abbr == some wkTm.2 then d
      else { d with core := { d.core with picks :=
          (updateFirst
            (fun p => p.player_id == d1AndId.2 && p.season == season && p.week == wkTm.1)
            (fun p => { p with team_abbr := some wkTm.2 }) d.core.picks) } }
    | none =>
      let np : Pick :=
        { pick_id := d.core.next_pick_id, player_id := d1AndId.2, season := season, week := wkTm.1, team_abbr := some wkTm.2, source := source_label }
      { d with core := { d.core with
          picks := d.core.picks ++ [np]
          next_pick_id := d.core.next_pick_id + 1 } }) d1AndId.1

/-- `ingest_players_and_picks` (lines 81-199).  The source commits the
delete phase on its own (line 108) before rebuilding; `failMid` injects an
exception during the rebuild/recalculation, taking the generic handler
(rollback, return False). -/
def ingest_players_and_picks (dialect : String) (lockHeld : Bool)
    (season now current_week : Int) (players_data : List (String × List (Int × String)))
    (source_label : String) (failMid : Option FullDB) (d0 : FullDB) : Session × Bool :=
  let s0 : Session := { committed := d0, current := d0 }
  if !(dialect == "sqlite") && lockHeld then
    (s0, false)
  else
    let s1 := commitS { s0 with current := deletePhase season s0.current }
    match failMid with
    | some partialCur => (rollbackS { s1 with current := partialCur }, false)
    | none =>
      let d1 := players_data.foldl (ingestPlayer season source_label) s1.current
      let d2 := { d1 with core := process_all_eliminations season now current_week d1.core }
      (commitS { s1 with current := d2 }, true)

/-! ## Well-formedness and the schedule invariant -/

/-- Primary-key well-formedness: distinct pick ids, result ids and game
ids, and the autoincrement sequence strictly ahead of every existing id.
Every state the database engine can hold satisfies this. -/
def WF (db : DB) : Prop :=
  (db.picks.map (·.pick_id)).Nodup ∧
  (db.pick_results.map (·.pick_id)).Nodup ∧
  (db.games.map (·.game_id)).Nodup ∧
  (∀ p ∈ db.picks, p.pick_id < db.next_pick_id) ∧
  (∀ r ∈ db.pick_results, r.pick_id < db.next_pick_id)

/-- The identity fields of a game consulted by pick-game matching; the
engine never changes them. -/
structure GameKey where
  season : Int
  week : Int
  home_team : String
  away_team : String
deriving DecidableEq, Repr

/-- The matching identity of a game. -/
def matchKey (g : Game) : GameKey :=
  { season := g.season, week := g.week, home_team := g.home_team, away_team := g.away_team }

/-- Two game identities of the same season and week sharing a team. -/
def keyClash (k1 k2 : GameKey) : Prop :=
  k1.season = k2.season ∧ k1.week = k2.week ∧
    (k1.home_team = k2.home_team ∨ k1.home_team = k2.away_team ∨
     k1.away_team = k2.home_team ∨ k1.away_team = k2.away_team)

instance keyClashDecidable (k1 k2 : GameKey) : Decidable (keyClash k1 k2) := by
  unfold keyClash
  infer_instance

/-- The data-model invariant of the spec: a team appears in at most one
game per (season, week), so a pick matches at most one game. -/
def TeamUnique (db : DB) : Prop :=
  db.games.Pairwise fun g1 g2 => ¬ keyClash (matchKey g1) (matchKey g2)

/-- A pick is settled in a database state when every game it matches fully
agrees with its result row: the row exists, is linked, is locked once
kickoff has passed, and — once the game is complete — the game is final
with a stable winner and the row carries the recomputed survival.  This is
exactly the state `update_pick_results` leaves behind, and a state in
which it writes nothing. -/
def PickSettled (now : Int) (db : DB) (p : Pick) : Prop :=
  ∀ g ∈ db.games, gameMatchesPick p g = true →
    ∃ pr, db.pick_results.find? (fun r => r.pick_id == p.pick_id) = some pr ∧
      pr.game_id = some g.game_id ∧
      (now ≥ g.kickoff → pr.is_locked = true) ∧
      (is_game_complete now g = true →
        g.status = GStatus.final ∧ deriveWinner g = g ∧
        (g.home_score.isSome = true → g.away_score.isSome = true →
          pr.survived = some (survivalOf p.team_abbr g)))

/-- Every game of the season whose two scores are present and whose
kickoff is more than 4 hours old is final — the state the stuck-game
finalizer leaves behind for the whole season. -/
def GameDone (season now : Int) (db : DB) : Prop :=
  ∀ g ∈ db.games, g.season = season → g.home_score.isSome = true →
    g.away_score.isSome = true → now - g.kickoff > 14400 → g.status = GStatus.final

/-! ## Concrete data for witnesses and counterexamples -/

/-- A finished, fully scored game won by KC. -/
def gKCFinal : Game :=
  { game_id := "kc1", season := 2025, week := 3, kickoff := 1000, home_team := "KC", away_team := "DEN", status := .final, home_score := some 24, away_score := some 20, winner_abbr := some "KC", point_spread := none, favorite_team := none }

/-- A pick on KC for week 3. -/
def pKCWk3 : Pick :=
  { pick_id := 1, player_id := 1, season := 2025, week := 3, team_abbr := some "KC", source := "google_sheets" }

/-- One-pick, one-game database around `gKCFinal`. -/
def dbKCFinal : DB :=
  { games := [gKCFinal], picks := [pKCWk3], pick_results := [], next_pick_id := 2 }

/-- A stalled game: scores present, status stuck in progress. -/
def gStuck : Game :=
  { game_id := "st1", season := 2025, week := 2, kickoff := 0, home_team := "SF", away_team := "LA", status := .inProgress, home_score := some 30, away_score := some 13, winner_abbr := none, point_spread := none, favorite_team := none }

/-- A database holding only the stalled game. -/
def dbStuck : DB :=
  { games := [gStuck], picks := [], pick_results := [], next_pick_id := 1 }

/-- A final game carrying a winner but no scores (a legal row: the schema
keeps scores nullable independently of status and winner). -/
def gFinalNoScores : Game :=
  { game_id := "g1", season := 2025, week := 1, kickoff := 1000, home_team := "KC", away_team := "DEN", status := .final, home_score := none, away_score := none, winner_abbr := some "KC", point_spread := none, favorite_team := none }

/-- A pick on the winner of `gFinalNoScores`. -/
def pOnKC : Pick :=
  { pick_id := 1, player_id := 1, season := 2025, week := 1, team_abbr := some "KC", source := "google_sheets" }

/-- One-pick database around `gFinalNoScores`. -/
def dbWinnerNoScores : DB :=
  { games := [gFinalNoScores], picks := [pOnKC], pick_results := [], next_pick_id := 2 }

/-- A finished game: KC beat DEN. -/
def gKCWin : Game :=
  { game_id := "a", season := 2025, week := 1, kickoff := 0, home_team := "KC", away_team := "DEN", status := .final, home_score := some 10, away_score := some 3, winner_abbr := some "KC", point_spread := none, favorite_team := none }

/-- A second game of the same week also involving KC, stalled in progress
with KC behind — violating the one-game-per-team invariant. -/
def gKCStuck : Game :=
  { game_id := "b", season := 2025, week := 1, kickoff := 0, home_team := "SF", away_team := "KC", status := .inProgress, home_score := some 7, away_score := some 0, winner_abbr := none, point_spread := none, favorite_team := none }

/-- A database where team KC appears in two games of the same week. -/
def dbDoubleMatch : DB :=
  { games := [gKCWin, gKCStuck], picks := [pOnKC], pick_results := [], next_pick_id := 2 }

/-- Week-2 final game won by BB. -/
def gBBWin : Game :=
  { game_id := "g2", season := 2025, week := 2, kickoff := 0, home_team := "BB", away_team := "CC", status := .final, home_score := some 20, away_score := some 10, winner_abbr := some "BB", point_spread := none, favorite_team := none }

/-- Week-1 pick of player 5 whose result already says `survived=false`. -/
def pW1Lost : Pick :=
  { pick_id := 1, player_id := 5, season := 2025, week := 1, team_abbr := some "AA", source := "s" }

/-- Week-2 pick of the already-eliminated player 5. -/
def pW2Later : Pick :=
  { pick_id := 2, player_id := 5, season := 2025, week := 2, team_abbr := some "BB", source := "s" }

/-- The failed result row eliminating player 5 in week 1. -/
def rW1Failed : PickResult :=
  { pick_id := 1, game_id := none, is_valid := true, is_locked := true, survived := some false }

/-- A database with an eliminated player who still has a later-week pick. -/
def dbEliminatedLater : DB :=
  { games := [gBBWin], picks := [pW1Lost, pW2Later], pick_results := [rW1Failed], next_pick_id := 3 }

/-- Pre-resync full state: one player with one stored pick. -/
def d0Resync : FullDB :=
  { core := { games := [], picks := [pOnKC], pick_results := [], next_pick_id := 2 }, players := [{ player_id := 1, display_name := "Ada" }], next_player_id := 2, job_meta := [] }

/-- A stored game carrying known odds. -/
def gOddsKnown : Game :=
  { game_id := "gw", season := 2025, week := 4, kickoff := 0, home_team := "KC", away_team := "DEN", status := .pre, home_score := none, away_score := none, winner_abbr := none, point_spread := some 3, favorite_team := some "KC" }

/-- An incoming feed row for the same game with no odds attached. -/
def gOddsIncoming : Game :=
  { game_id := "gw", season := 2025, week := 4, kickoff := 0, home_team := "KC", away_team := "DEN", status := .inProgress, home_score := some 7, away_score := some 0, winner_abbr := none, point_spread := none, favorite_team := none }

/-- Database holding `gOddsKnown`. -/
def dbOddsKnown : DB :=
  { games := [gOddsKnown], picks := [], pick_results := [], next_pick_id := 1 }

/-- The picks belonging to one player. -/
def pidPicks (db : DB) (pid : Nat) : List Pick :=
  db.picks.filter fun p => p.player_id == pid

/-- Tracking a player through the auto-eliminator before their missing
week is reached: still alive, the alive set duplicate-free, games and the
player's picks untouched. -/
def ElimTrack1 (db0 : DB) (pid : Nat) (st : ElimState) : Prop :=
  st.db.games = db0.games ∧ pid ∈ st.alive ∧ st.alive.Nodup ∧
    pidPicks st.db pid = pidPicks db0 pid

/-- Tracking a player through the auto-eliminator after their synthetic
elimination: discarded from the alive set, exactly one synthetic pick
added, and its failed result present. -/
def ElimTrack2 (season W : Int) (db0 : DB) (pid n : Nat) (st : ElimState) : Prop :=
  st.db.games = db0.games ∧ pid ∉ st.alive ∧
    pidPicks st.db pid = pidPicks db0 pid ++ [syntheticPick n pid season W] ∧
    syntheticResult n ∈ st.db.pick_results

/-- An eliminated player passing untouched through the auto-eliminator:
never in the alive set, picks never modified. -/
def ElimFrame (db0 : DB) (pid : Nat) (st : ElimState) : Prop :=
  pid ∉ st.alive ∧ pidPicks st.db pid = pidPicks db0 pid

/-- The shape invariant of the auto-eliminator relative to its input
database `X`: results only appended, every pick either original or a
null-team synthetic paired with its failed result, originals kept. -/
def ElimShape (X : DB) (st : ElimState) : Prop :=
  (∃ t, st.db.pick_results = X.pick_results ++ t) ∧
  (∀ p ∈ st.db.picks, p ∈ X.picks ∨ (p.team_abbr = none ∧
    syntheticResult p.pick_id ∈ st.db.pick_results)) ∧
  (∀ p ∈ X.picks, p ∈ st.db.picks)

/-- A second eliminator run writing nothing: the session equals the
first run's output and the alive set never grows beyond its start. -/
def ElimFix (Y : DB) (al : List Nat) (st : ElimState) : Prop :=
  st.db = Y ∧ ∀ x ∈ st.alive, x ∈ al

/-- Week-1 final game, A beat B. -/
def gAB1 : Game :=
  { game_id := "ab1", season := 2025, week := 1, kickoff := 0, home_team := "A", away_team := "B", status := .final, home_score := some 1, away_score := some 0, winner_abbr := some "A", point_spread := none, favorite_team := none }

/-- Week-2 final game, A beat B. -/
def gAB2 : Game :=
  { game_id := "ab2", season := 2025, week := 2, kickoff := 0, home_team := "A", away_team := "B", status := .final, home_score := some 1, away_score := some 0, winner_abbr := some "A", point_spread := none, favorite_team := none }

/-- Player 7's week-1 pick. -/
def pP7 : Pick :=
  { pick_id := 1, player_id := 7, season := 2025, week := 1, team_abbr := some "A", source := "s" }

/-- A player who picked in week 1 and went silent in completed week 2. -/
def dbMissedWk2 : DB :=
  { games := [gAB1, gAB2], picks := [pP7], pick_results := [], next_pick_id := 2 }

/-- The auto-eliminator's per-week guard as a single test: the week has at
least one game and all its games are final. -/
def weekComplete (season w : Int) (gs : List Game) : Bool :=
  !(gs.filter fun g => g.season == season && g.week == w).isEmpty &&
    ((gs.filter fun g => g.season == season && g.week == w).all
      fun g => decide (g.status = GStatus.final))

/-! ## List lemmas -/

theorem updateFirst_of_forall_not {P : α → Bool} {f : α → α} {l : List α}
    (h : ∀ a ∈ l, P a = false) : updateFirst P f l = l := by
  induction l with
  | nil => rfl
  | cons x xs ih =>
    have hx : ¬ P x = true := by simp [h x (List.mem_cons_self x xs)]
    rw [updateFirst, if_neg hx, ih fun a ha => h a (List.mem_cons_of_mem x ha)]

theorem updateFirst_map {P : α → Bool} {f : α → α} {g : α → β} {l : List α}
    (h : ∀ a, P a = true → g (f a) = g a) :
    (updateFirst P f l).map g = l.map g := by
  induction l with
  | nil => rfl
  | cons x xs ih =>
    by_cases hx : P x
    · simp [updateFirst, hx, h x hx]
    · simp [updateFirst, hx, ih]

theorem updateFirst_length {P : α → Bool} {f : α → α} {l : List α} :
    (updateFirst P f l).length = l.length := by
  induction l with
  | nil => rfl
  | cons x xs ih =>
    by_cases hx : P x <;> simp [updateFirst, hx, ih]

theorem mem_updateFirst {P : α → Bool} {f : α → α} {l : List α} {b : α}
    (hb : b ∈ updateFirst P f l) : b ∈ l ∨ ∃ a ∈ l, P a = true ∧ b = f a := by
  induction l with
  | nil => simp [updateFirst] at hb
  | cons x xs ih =>
    by_cases hx : P x
    · simp only [updateFirst, hx, if_pos] at hb
      rcases List.mem_cons.mp hb with h | h
      · exact Or.inr ⟨x, List.mem_cons_self x xs, hx, h⟩
      · exact Or.inl (List.mem_cons_of_mem x h)
    · simp only [updateFirst, hx, if_neg, Bool.false_eq_true, not_false_iff] at hb
      rcases List.mem_cons.mp hb with h | h
      · exact Or.inl (h ▸ List.mem_cons_self x xs)
      · rcases ih h with h' | ⟨a, ha, hPa, hfa⟩
        · exact Or.inl (List.mem_cons_of_mem x h')
        · exact Or.inr ⟨a, List.mem_cons_of_mem x ha, hPa, hfa⟩

theorem updateFirst_eq_self {P : α → Bool} {f : α → α} {l : List α} {a : α}
    (hfind : l.find? P = some a) (hfa : f a = a) : updateFirst P f l = l := by
  induction l with
  | nil => simp at hfind
  | cons x xs ih =>
    by_cases hx : P x
    · rw [List.find?_cons_of_pos _ hx] at hfind
      injection hfind with h
      subst h
      simp [updateFirst, hx, hfa]
    · rw [List.find?_cons_of_neg _ hx] at hfind
      simp [updateFirst, hx, ih hfind]

theorem find?_updateFirst_found {P : α → Bool} {f : α → α} {l : List α} {a : α}
    (hfind : l.find? P = some a) (hPfa : P (f a) = true) :
    (updateFirst P f l).find? P = some (f a) := by
  induction l with
  | nil => simp at hfind
  | cons x xs ih =>
    by_cases hx : P x
    · rw [List.find?_cons_of_pos _ hx] at hfind
      injection hfind with h
      subst h
      simp [updateFirst, hx, List.find?_cons_of_pos _ hPfa]
    · rw [List.find?_cons_of_neg _ hx] at hfind
      simp [updateFirst, hx, List.find?_cons_of_neg _ hx, ih hfind]

theorem find?_updateFirst_other {P Q : α → Bool} {f : α → α} {l : List α}
    (h : ∀ a ∈ l, P a = true → Q a = false ∧ Q (f a) = false) :
    (updateFirst P f l).find? Q = l.find? Q := by
  induction l with
  | nil => rfl
  | cons x xs ih =>
    by_cases hx : P x
    · obtain ⟨hQx, hQfx⟩ := h x (List.mem_cons_self x xs) hx
      have h1 : ¬ Q (f x) = true := by simp [hQfx]
      have h2 : ¬ Q x = true := by simp [hQx]
      rw [updateFirst, if_pos hx, List.find?_cons_of_neg _ h1, List.find?_cons_of_neg _ h2]
    · by_cases hQx : Q x
      · simp [updateFirst, hx, List.find?_cons_of_pos _ hQx]
      · simp [updateFirst, hx, List.find?_cons_of_neg _ hQx,
          ih fun a ha => h a (List.mem_cons_of_mem x ha)]

theorem find?_append_left {P : α → Bool} {l l' : List α} {a : α}
    (h : l.find? P = some a) : (l ++ l').find? P = some a := by
  induction l with
  | nil => simp at h
  | cons x xs ih =>
    by_cases hx : P x
    · rw [List.find?_cons_of_pos _ hx] at h
      simp [List.find?_cons_of_pos _ hx, h]
    · rw [List.find?_cons_of_neg _ hx] at h
      simp [List.find?_cons_of_neg _ hx, ih h]

theorem find?_append_none {P : α → Bool} {l l' : List α}
    (h : l.find? P = none) : (l ++ l').find? P = l'.find? P := by
  induction l with
  | nil => simp
  | cons x xs ih =>
    by_cases hx : P x
    · rw [List.find?_cons_of_pos _ hx] at h
      exact absurd h (by simp)
    · rw [List.find?_cons_of_neg _ hx] at h
      simp [List.find?_cons_of_neg _ hx, ih h]

/-- A member of a list whose projections under `key` are pairwise distinct is
found by searching for its key. -/
theorem find?_key_of_mem {key : α → β} [DecidableEq β] {l : List α} {a : α}
    (ha : a ∈ l) (hnd : (l.map key).Nodup) :
    l.find? (fun x => key x = key a) = some a := by
  induction l with
  | nil => simp at ha
  | cons x xs ih =>
    rcases List.mem_cons.mp ha with h | h
    · subst h
      simp [List.find?_cons_of_pos]
    · have hx : key x ≠ key a := by
        intro hEq
        have : key a ∈ xs.map key := List.mem_map_of_mem key h
        simp only [List.map_cons, List.nodup_cons] at hnd
        exact hnd.1 (hEq ▸ this)
      rw [List.find?_cons_of_neg _ (by simp [hx])]
      exact ih h (by simp only [List.map_cons, List.nodup_cons] at hnd; exact hnd.2)

theorem foldl_fixed {f : β → α → β} {b : β} {l : List α}
    (h : ∀ a ∈ l, f b a = b) : l.foldl f b = b := by
  induction l with
  | nil => rfl
  | cons x xs ih =>
    simp only [List.foldl_cons, h x (List.mem_cons_self x xs)]
    exact ih fun a ha => h a (List.mem_cons_of_mem x ha)

theorem updateFirst_map_find? {P : α → Bool} {f : α → α} {g : α → β} {l : List α} {a : α}
    (hfind : l.find? P = some a) (h : g (f a) = g a) :
    (updateFirst P f l).map g = l.map g := by
  induction l with
  | nil => simp at hfind
  | cons x xs ih =>
    by_cases hx : P x
    · rw [List.find?_cons_of_pos _ hx] at hfind
      injection hfind with hax
      subst hax
      simp [updateFirst, hx, h]
    · rw [List.find?_cons_of_neg _ hx] at hfind
      simp [updateFirst, hx, ih hfind]

/-- A fold whose steps all preserve a projection preserves it overall. -/
theorem foldl_pres (g : β → γ) {f : β → α → β} {l : List α}
    (h : ∀ b a, a ∈ l → g (f b a) = g b) (b : β) : g (l.foldl f b) = g b := by
  induction l generalizing b with
  | nil => rfl
  | cons x xs ih =>
    rw [List.foldl_cons, ih fun b' a ha => h b' a (List.mem_cons_of_mem x ha)]
    exact h b x (List.mem_cons_self x xs)

theorem foldl_induction {f : β → α → β} {P : β → Prop} :
    ∀ {l : List α} {b : β}, P b → (∀ b' a, a ∈ l → P b' → P (f b' a)) → P (l.foldl f b) := by
  intro l
  induction l with
  | nil => intro b hb _; exact hb
  | cons x xs ih =>
    intro b hb hstep
    rw [List.foldl_cons]
    exact ih (hstep b x (List.mem_cons_self x xs) hb)
      (fun b' a ha => hstep b' a (List.mem_cons_of_mem x ha))

theorem any_congr {l : List α} {f g : α → Bool} (h : ∀ a ∈ l, f a = g a) :
    l.any f = l.any g := by
  induction l with
  | nil => rfl
  | cons x xs ih =>
    simp only [List.any_cons]
    rw [h x (List.mem_cons_self x xs), ih fun a ha => h a (List.mem_cons_of_mem x ha)]

theorem any_and_filter (l : List α) (P Q : α → Bool) :
    l.any (fun a => P a && Q a) = (l.filter Q).any P := by
  induction l with
  | nil => rfl
  | cons x xs ih =>
    by_cases hq : Q x = true
    · rw [List.filter_cons_of_pos hq]
      simp only [List.any_cons]
      rw [hq, Bool.and_true, ih]
    · rw [Bool.not_eq_true] at hq
      rw [List.filter_cons_of_neg (by simp [hq])]
      simp only [List.any_cons]
      rw [hq, Bool.and_false, Bool.false_or, ih]

theorem any_imp {l : List α} {f g : α → Bool} (h : ∀ a, f a = true → g a = true)
    (hf : l.any f = true) : l.any g = true := by
  obtain ⟨a, ha, hfa⟩ := List.any_eq_true.mp hf
  exact List.any_eq_true.mpr ⟨a, ha, h a hfa⟩

theorem mem_rangeInt {lo hi x : Int} : x ∈ rangeInt lo hi ↔ lo ≤ x ∧ x < hi := by
  unfold rangeInt
  constructor
  · intro hx
    obtain ⟨i, hi', rfl⟩ := List.mem_map.mp hx
    have := List.mem_range.mp hi'
    omega
  · intro ⟨h1, h2⟩
    refine List.mem_map.mpr ⟨(x - lo).toNat, List.mem_range.mpr (by omega), by omega⟩

theorem rangeInt_cons {lo hi : Int} (h : lo < hi) :
    rangeInt lo hi = lo :: rangeInt (lo + 1) hi := by
  unfold rangeInt
  have h1 : (hi - lo).toNat = (hi - (lo + 1)).toNat + 1 := by omega
  rw [h1, List.range_succ_eq_map]
  simp only [List.map_cons, List.map_map]
  refine List.cons_eq_cons.mpr ⟨by simp, ?_⟩
  refine List.map_congr_left fun i _ => ?_
  simp only [Function.comp_apply]
  omega

theorem rangeInt_append {lo mid hi : Int} (h1 : lo ≤ mid) (h2 : mid ≤ hi) :
    rangeInt lo hi = rangeInt lo mid ++ rangeInt mid hi := by
  unfold rangeInt
  have h3 : (hi - lo).toNat = (mid - lo).toNat + (hi - mid).toNat := by omega
  rw [h3, List.range_add, List.map_append, List.map_map]
  congr 1
  refine List.map_congr_left fun i _ => ?_
  simp [Function.comp]
  omega

/-! ## Record update helpers -/

theorem game_set_status_self {g : Game} (h : g.status = GStatus.final) :
    { g with status := GStatus.final } = g := by
  rcases g with ⟨_, _, _, _, _, _, st, _, _, _, _, _⟩
  subst h
  rfl

theorem pr_set_game_id_self {pr : PickResult} {v : Option String} (h : pr.game_id = v) :
    { pr with game_id := v } = pr := by
  rcases pr with ⟨_, gi, _, _, _⟩
  subst h
  rfl

theorem pr_set_survived_self {pr : PickResult} {v : Option Bool} (h : pr.survived = v) :
    { pr with survived := v } = pr := by
  rcases pr with ⟨_, _, _, _, sv⟩
  subst h
  rfl

/-! ## Winner derivation and the per-game completion step -/

theorem deriveWinner_shape (g : Game) :
    deriveWinner g = g ∨ deriveWinner g = { g with winner_abbr := some g.home_team } ∨
      deriveWinner g = { g with winner_abbr := some g.away_team } := by
  rcases g with ⟨gid, se, wk, ko, ht, aw, st, hs, as_, wn, ps, ft⟩
  rcases wn with _ | w
  · rcases hs with _ | hsv
    · exact Or.inl rfl
    · rcases as_ with _ | asv
      · exact Or.inl rfl
      · unfold deriveWinner
        dsimp only
        by_cases h1 : hsv > asv
        · rw [if_pos h1]
          exact Or.inr (Or.inl rfl)
        · rw [if_neg h1]
          by_cases h2 : asv > hsv
          · rw [if_pos h2]
            exact Or.inr (Or.inr rfl)
          · rw [if_neg h2]
            exact Or.inl rfl
  · exact Or.inl rfl

theorem deriveWinner_game_id (g : Game) : (deriveWinner g).game_id = g.game_id := by
  rcases deriveWinner_shape g with h | h | h <;> rw [h]

theorem deriveWinner_matchKey (g : Game) : matchKey (deriveWinner g) = matchKey g := by
  rcases deriveWinner_shape g with h | h | h <;> rw [h] <;> rfl

theorem deriveWinner_status (g : Game) : (deriveWinner g).status = g.status := by
  rcases deriveWinner_shape g with h | h | h <;> rw [h]

theorem deriveWinner_home_score (g : Game) : (deriveWinner g).home_score = g.home_score := by
  rcases deriveWinner_shape g with h | h | h <;> rw [h]

theorem deriveWinner_away_score (g : Game) : (deriveWinner g).away_score = g.away_score := by
  rcases deriveWinner_shape g with h | h | h <;> rw [h]

theorem deriveWinner_kickoff (g : Game) : (deriveWinner g).kickoff = g.kickoff := by
  rcases deriveWinner_shape g with h | h | h <;> rw [h]

theorem deriveWinner_of_winner_some {g : Game} {w : String} (h : g.winner_abbr = some w) :
    deriveWinner g = g := by
  rcases g with ⟨gid, se, wk, ko, ht, aw, st, hs, as_, wn, ps, ft⟩
  subst h
  rfl

theorem deriveWinner_idem (g : Game) : deriveWinner (deriveWinner g) = deriveWinner g := by
  rcases deriveWinner_shape g with h | h | h
  · rw [h, h]
  · rw [h]
    exact deriveWinner_of_winner_some rfl
  · rw [h]
    exact deriveWinner_of_winner_some rfl

theorem is_game_complete_of_final {now : Int} {g : Game} (h : g.status = GStatus.final) :
    is_game_complete now g = true := by
  unfold is_game_complete
  rw [if_pos (by simp [h])]

theorem stepGame_of_not_complete {now : Int} {g : Game} (h : is_game_complete now g = false) :
    stepGame now g = g := by
  unfold stepGame
  rw [if_neg (by simp [h])]

theorem stepGame_of_complete {now : Int} {g : Game} (h : is_game_complete now g = true) :
    stepGame now g = deriveWinner { g with status := GStatus.final } := by
  unfold stepGame
  rw [if_pos h]

theorem stepGame_status_final {now : Int} {g : Game} (h : is_game_complete now g = true) :
    (stepGame now g).status = GStatus.final := by
  rw [stepGame_of_complete h, deriveWinner_status]

theorem stepGame_game_id (now : Int) (g : Game) : (stepGame now g).game_id = g.game_id := by
  by_cases h : is_game_complete now g = true
  · rw [stepGame_of_complete h, deriveWinner_game_id]
  · rw [stepGame_of_not_complete (Bool.not_eq_true _ ▸ Bool.of_not_eq_true h)]

theorem stepGame_matchKey (now : Int) (g : Game) : matchKey (stepGame now g) = matchKey g := by
  by_cases h : is_game_complete now g = true
  · rw [stepGame_of_complete h, deriveWinner_matchKey]
    rfl
  · rw [stepGame_of_not_complete (Bool.of_not_eq_true h)]

theorem stepGame_home_score (now : Int) (g : Game) :
    (stepGame now g).home_score = g.home_score := by
  by_cases h : is_game_complete now g = true
  · rw [stepGame_of_complete h, deriveWinner_home_score]
  · rw [stepGame_of_not_complete (Bool.of_not_eq_true h)]

theorem stepGame_away_score (now : Int) (g : Game) :
    (stepGame now g).away_score = g.away_score := by
  by_cases h : is_game_complete now g = true
  · rw [stepGame_of_complete h, deriveWinner_away_score]
  · rw [stepGame_of_not_complete (Bool.of_not_eq_true h)]

theorem stepGame_kickoff (now : Int) (g : Game) : (stepGame now g).kickoff = g.kickoff := by
  by_cases h : is_game_complete now g = true
  · rw [stepGame_of_complete h, deriveWinner_kickoff]
  · rw [stepGame_of_not_complete (Bool.of_not_eq_true h)]

theorem complete_stepGame (now : Int) (g : Game) :
    is_game_complete now (stepGame now g) = is_game_complete now g := by
  by_cases h : is_game_complete now g = true
  · rw [h, is_game_complete_of_final (stepGame_status_final h)]
  · rw [stepGame_of_not_complete (Bool.of_not_eq_true h)]

theorem stepGame_idem (now : Int) (g : Game) :
    stepGame now (stepGame now g) = stepGame now g := by
  by_cases h : is_game_complete now g = true
  · have h1 : is_game_complete now (stepGame now g) = true := (complete_stepGame now g).trans h
    rw [stepGame_of_complete h1, game_set_status_self (stepGame_status_final h),
      stepGame_of_complete h, deriveWinner_idem]
  · rw [stepGame_of_not_complete (Bool.of_not_eq_true h),
      stepGame_of_not_complete (Bool.of_not_eq_true h)]

theorem stepGame_eq_self_of_settled {now : Int} {g : Game}
    (h : is_game_complete now g = true → g.status = GStatus.final ∧ deriveWinner g = g) :
    stepGame now g = g := by
  by_cases hc : is_game_complete now g = true
  · obtain ⟨hf, hd⟩ := h hc
    rw [stepGame_of_complete hc, game_set_status_self hf, hd]
  · exact stepGame_of_not_complete (Bool.of_not_eq_true hc)

theorem matchKey_fields {g g' : Game} (h : matchKey g = matchKey g') :
    g.season = g'.season ∧ g.week = g'.week ∧ g.home_team = g'.home_team ∧
      g.away_team = g'.away_team :=
  ⟨congrArg GameKey.season h, congrArg GameKey.week h,
    congrArg GameKey.home_team h, congrArg GameKey.away_team h⟩

theorem gameMatchesPick_congr (p : Pick) {g g' : Game} (h : matchKey g = matchKey g') :
    gameMatchesPick p g = gameMatchesPick p g' := by
  obtain ⟨h1, h2, h3, h4⟩ := matchKey_fields h
  unfold gameMatchesPick
  rw [h1, h2, h3, h4]

/-! ## Keyed rows -/

theorem eq_of_mem_of_key_eq {β : Type} {key : α → β} {l : List α} {a b : α}
    (ha : a ∈ l) (hb : b ∈ l) (hk : key a = key b) (hnd : (l.map key).Nodup) : a = b := by
  induction l with
  | nil => simp at ha
  | cons x xs ih =>
    simp only [List.map_cons, List.nodup_cons] at hnd
    rcases List.mem_cons.mp ha with rfl | ha'
    · rcases List.mem_cons.mp hb with rfl | hb'
      · rfl
      · exact absurd (hk ▸ List.mem_map_of_mem key hb') hnd.1
    · rcases List.mem_cons.mp hb with rfl | hb'
      · exact absurd (hk ▸ List.mem_map_of_mem key ha') hnd.1
      · exact ih ha' hb' hnd.2

theorem find?_beq_key_of_mem {β : Type} [BEq β] [LawfulBEq β] {key : α → β} {l : List α}
    {a : α} (ha : a ∈ l) (hnd : (l.map key).Nodup) :
    l.find? (fun x => key x == key a) = some a := by
  induction l with
  | nil => simp at ha
  | cons x xs ih =>
    simp only [List.map_cons, List.nodup_cons] at hnd
    rcases List.mem_cons.mp ha with rfl | ha'
    · exact List.find?_cons_of_pos _ (by simp)
    · have hx : (key x == key a) = false := by
        rw [Bool.eq_false_iff]
        intro hEq
        exact hnd.1 ((eq_of_beq hEq) ▸ List.mem_map_of_mem key ha')
      simp only [List.find?]
      rw [hx]
      exact ih ha' hnd.2

theorem mem_updateFirst_key {β : Type} [BEq β] [LawfulBEq β] {key : α → β} {l : List α}
    {k : β} {f : α → α} {b : α} (hnd : (l.map key).Nodup) :
    b ∈ updateFirst (fun x => key x == k) f l ↔
      (b ∈ l ∧ (key b == k) = false) ∨ ∃ a, a ∈ l ∧ (key a == k) = true ∧ b = f a := by
  induction l with
  | nil => simp [updateFirst]
  | cons x xs ih =>
    simp only [List.map_cons, List.nodup_cons] at hnd
    by_cases hx : (key x == k) = true
    · rw [updateFirst, if_pos hx]
      constructor
      · intro hb
        rcases List.mem_cons.mp hb with rfl | hb'
        · exact Or.inr ⟨x, List.mem_cons_self x xs, hx, rfl⟩
        · refine Or.inl ⟨List.mem_cons_of_mem x hb', ?_⟩
          by_contra hbk
          rw [Bool.not_eq_false] at hbk
          exact hnd.1 ((eq_of_beq hbk).trans (eq_of_beq hx).symm ▸
            List.mem_map_of_mem key hb')
      · intro hb
        rcases hb with ⟨hb', hbk⟩ | ⟨a, ha, hak, rfl⟩
        · rcases List.mem_cons.mp hb' with rfl | hb''
          · rw [hx] at hbk
            exact absurd hbk (by simp)
          · exact List.mem_cons_of_mem _ hb''
        · rcases List.mem_cons.mp ha with rfl | ha'
          · exact List.mem_cons_self _ _
          · exact absurd ((eq_of_beq hak).trans (eq_of_beq hx).symm ▸
              List.mem_map_of_mem key ha') hnd.1
    · rw [updateFirst, if_neg hx]
      constructor
      · intro hb
        rcases List.mem_cons.mp hb with rfl | hb'
        · exact Or.inl ⟨List.mem_cons_self b xs, Bool.not_eq_true _ ▸ hx⟩
        · rcases (ih hnd.2).mp hb' with ⟨hm, hk'⟩ | ⟨a, ha, hak, rfl⟩
          · exact Or.inl ⟨List.mem_cons_of_mem x hm, hk'⟩
          · exact Or.inr ⟨a, List.mem_cons_of_mem x ha, hak, rfl⟩
      · intro hb
        rcases hb with ⟨hb', hbk⟩ | ⟨a, ha, hak, rfl⟩
        · rcases List.mem_cons.mp hb' with rfl | hb''
          · exact List.mem_cons_self _ _
          · exact List.mem_cons_of_mem x ((ih hnd.2).mpr (Or.inl ⟨hb'', hbk⟩))
        · rcases List.mem_cons.mp ha with rfl | ha'
          · exact absurd hak hx
          · exact List.mem_cons_of_mem x ((ih hnd.2).mpr (Or.inr ⟨a, ha', hak, rfl⟩))

/-! ## Row-step facts -/

theorem linkLockStep_pick_id (now : Int) (g : Game) (pr : PickResult) :
    (linkLockStep now g pr).pick_id = pr.pick_id := by
  unfold linkLockStep
  split <;> rfl

theorem linkLockStep_game_id (now : Int) (g : Game) (pr : PickResult) :
    (linkLockStep now g pr).game_id = some g.game_id := by
  unfold linkLockStep
  split <;> rfl

theorem linkLockStep_is_valid (now : Int) (g : Game) (pr : PickResult) :
    (linkLockStep now g pr).is_valid = pr.is_valid := by
  unfold linkLockStep
  split <;> rfl

theorem linkLockStep_survived (now : Int) (g : Game) (pr : PickResult) :
    (linkLockStep now g pr).survived = pr.survived := by
  unfold linkLockStep
  split <;> rfl

theorem linkLockStep_is_locked (now : Int) (g : Game) (pr : PickResult) :
    (linkLockStep now g pr).is_locked = (pr.is_locked || decide (now ≥ g.kickoff)) := by
  unfold linkLockStep
  rcases hl : pr.is_locked <;> rcases hk : decide (now ≥ g.kickoff) <;> simp [hl, hk]

theorem surviveStep_pick_id (now : Int) (team : Option String) (g : Game) (pr : PickResult) :
    (surviveStep now team g pr).pick_id = pr.pick_id := by
  unfold surviveStep
  split <;> rfl

theorem surviveStep_game_id (now : Int) (team : Option String) (g : Game) (pr : PickResult) :
    (surviveStep now team g pr).game_id = pr.game_id := by
  unfold surviveStep
  split <;> rfl

theorem surviveStep_is_locked (now : Int) (team : Option String) (g : Game) (pr : PickResult) :
    (surviveStep now team g pr).is_locked = pr.is_locked := by
  unfold surviveStep
  split <;> rfl

theorem surviveStep_is_valid (now : Int) (team : Option String) (g : Game) (pr : PickResult) :
    (surviveStep now team g pr).is_valid = pr.is_valid := by
  unfold surviveStep
  split <;> rfl

theorem surviveStep_survived_of_complete {now : Int} {team : Option String} {g : Game}
    (pr : PickResult) (hc : is_game_complete now g = true)
    (hh : (stepGame now g).home_score.isSome = true)
    (ha : (stepGame now g).away_score.isSome = true) :
    (surviveStep now team g pr).survived = some (survivalOf team (stepGame now g)) := by
  unfold surviveStep
  rw [if_pos (by rw [hc, hh, ha]; rfl)]

theorem surviveStep_survived_of_incomplete {now : Int} {team : Option String} {g : Game}
    (pr : PickResult) (h : (is_game_complete now g && (stepGame now g).home_score.isSome &&
      (stepGame now g).away_score.isSome) = false) :
    (surviveStep now team g pr).survived = pr.survived := by
  unfold surviveStep
  rw [if_neg (by rw [h]; simp)]

/-! ## processPick characterization -/

theorem processPick_of_no_game {now : Int} {db : DB} {p : Pick}
    (h : db.games.find? (gameMatchesPick p) = none) : processPick now db p = db := by
  unfold processPick
  rw [h]

theorem processPick_picks (now : Int) (db : DB) (p : Pick) :
    (processPick now db p).picks = db.picks := by
  unfold processPick
  cases h : db.games.find? (gameMatchesPick p) with
  | none => rfl
  | some g => rfl

theorem processPick_next_pick_id (now : Int) (db : DB) (p : Pick) :
    (processPick now db p).next_pick_id = db.next_pick_id := by
  unfold processPick
  cases h : db.games.find? (gameMatchesPick p) with
  | none => rfl
  | some g => rfl

theorem processPick_games_of_found {now : Int} {db : DB} {p : Pick} {g : Game}
    (h : db.games.find? (gameMatchesPick p) = some g) :
    (processPick now db p).games =
      updateFirst (fun x => x.game_id == g.game_id) (fun _ => stepGame now g) db.games := by
  unfold processPick
  rw [h]

theorem processPick_games_map {γ : Type} (proj : Game → γ) (now : Int) (db : DB) (p : Pick)
    (hproj : ∀ g, proj (stepGame now g) = proj g)
    (hnd : (db.games.map (·.game_id)).Nodup) :
    (processPick now db p).games.map proj = db.games.map proj := by
  unfold processPick
  cases h : db.games.find? (gameMatchesPick p) with
  | none => rfl
  | some g =>
    have hmem : g ∈ db.games := List.mem_of_find?_eq_some h
    have hkey : db.games.find? (fun x => x.game_id == g.game_id) = some g :=
      find?_beq_key_of_mem hmem hnd
    exact updateFirst_map_find? hkey (hproj g)

theorem processPick_results_find_own {now : Int} {db : DB} {p : Pick} {g : Game}
    (h : db.games.find? (gameMatchesPick p) = some g) :
    (processPick now db p).pick_results.find? (fun r => r.pick_id == p.pick_id) =
      some (surviveStep now p.team_abbr g (linkLockStep now g
        ((db.pick_results.find? (fun r => r.pick_id == p.pick_id)).getD
          (newPickResult p.pick_id)))) := by
  unfold processPick
  rw [h]
  cases hf : db.pick_results.find? (fun r => r.pick_id == p.pick_id) with
  | none =>
    simp only [hf]
    rw [find?_append_none hf, List.find?_cons_of_pos _ (by
      rw [surviveStep_pick_id, linkLockStep_pick_id]
      simp [newPickResult])]
  | some pr =>
    simp only [hf]
    have hpr := List.find?_some hf
    refine find?_updateFirst_found hf ?_
    rw [surviveStep_pick_id, linkLockStep_pick_id]
    exact hpr

theorem processPick_results_find_other {now : Int} {db : DB} {q : Pick} {k : Nat}
    (hk : k ≠ q.pick_id) :
    (processPick now db q).pick_results.find? (fun r => r.pick_id == k) =
      db.pick_results.find? (fun r => r.pick_id == k) := by
  unfold processPick
  cases h : db.games.find? (gameMatchesPick q) with
  | none => rfl
  | some g =>
    cases hf : db.pick_results.find? (fun r => r.pick_id == q.pick_id) with
    | none =>
      simp only [hf]
      cases hk2 : db.pick_results.find? (fun r => r.pick_id == k) with
      | none =>
        rw [find?_append_none hk2, List.find?_cons_of_neg _ (by
          rw [surviveStep_pick_id, linkLockStep_pick_id]
          simp [newPickResult]
          exact fun hEq => hk hEq.symm)]
        rfl
      | some r => exact find?_append_left hk2
    | some pr =>
      simp only [hf]
      have hpr := List.find?_some hf
      refine find?_updateFirst_other (fun a ha hPa => ⟨?_, ?_⟩)
      · have : a.pick_id = q.pick_id := eq_of_beq hPa
        simp [this]
        exact fun hEq => hk hEq.symm
      · rw [surviveStep_pick_id, linkLockStep_pick_id]
        have hpq : pr.pick_id = q.pick_id := eq_of_beq hpr
        simp only [Option.getD_some]
        simp [hpq]
        exact fun hEq => hk hEq.symm

theorem processPick_results_ids {now : Int} {db : DB} {p : Pick} :
    (processPick now db p).pick_results.map (·.pick_id) = db.pick_results.map (·.pick_id) ∨
    ((processPick now db p).pick_results.map (·.pick_id) =
        db.pick_results.map (·.pick_id) ++ [p.pick_id] ∧
      db.pick_results.find? (fun r => r.pick_id == p.pick_id) = none) := by
  unfold processPick
  cases h : db.games.find? (gameMatchesPick p) with
  | none => exact Or.inl rfl
  | some g =>
    cases hf : db.pick_results.find? (fun r => r.pick_id == p.pick_id) with
    | none =>
      refine Or.inr ⟨?_, rfl⟩
      simp only [hf, List.map_append]
      rw [List.map_singleton, surviveStep_pick_id, linkLockStep_pick_id]
      rfl
    | some pr =>
      refine Or.inl ?_
      simp only [hf]
      refine updateFirst_map_find? hf ?_
      rw [surviveStep_pick_id, linkLockStep_pick_id]
      rfl

theorem processPick_eq_found_some {now : Int} {db : DB} {q : Pick} {g : Game} {pr : PickResult}
    (h : db.games.find? (gameMatchesPick q) = some g)
    (hf : db.pick_results.find? (fun r => r.pick_id == q.pick_id) = some pr) :
    processPick now db q = { db with
      games := updateFirst (fun x => x.game_id == g.game_id) (fun _ => stepGame now g) db.games
      pick_results := updateFirst (fun r => r.pick_id == q.pick_id)
        (fun _ => surviveStep now q.team_abbr g (linkLockStep now g pr)) db.pick_results } := by
  unfold processPick
  rw [h, hf]
  rfl

theorem processPick_eq_found_none {now : Int} {db : DB} {q : Pick} {g : Game}
    (h : db.games.find? (gameMatchesPick q) = some g)
    (hf : db.pick_results.find? (fun r => r.pick_id == q.pick_id) = none) :
    processPick now db q = { db with
      games := updateFirst (fun x => x.game_id == g.game_id) (fun _ => stepGame now g) db.games
      pick_results := db.pick_results ++
        [surviveStep now q.team_abbr g (linkLockStep now g (newPickResult q.pick_id))] } := by
  unfold processPick
  rw [h, hf]
  rfl

/-! ## The schedule invariant in use -/

theorem keyClash_symm {k1 k2 : GameKey} (h : keyClash k1 k2) : keyClash k2 k1 := by
  obtain ⟨hs, hw, hor⟩ := h
  refine ⟨hs.symm, hw.symm, ?_⟩
  rcases hor with h | h | h | h
  · exact Or.inl h.symm
  · exact Or.inr (Or.inr (Or.inl h.symm))
  · exact Or.inr (Or.inl h.symm)
  · exact Or.inr (Or.inr (Or.inr h.symm))

theorem matches_keyClash {p : Pick} {g1 g2 : Game}
    (m1 : gameMatchesPick p g1 = true) (m2 : gameMatchesPick p g2 = true) :
    keyClash (matchKey g1) (matchKey g2) := by
  unfold gameMatchesPick at m1 m2
  simp only [Bool.and_eq_true, Bool.or_eq_true, beq_iff_eq] at m1 m2
  obtain ⟨⟨hs1, hw1⟩, ht1⟩ := m1
  obtain ⟨⟨hs2, hw2⟩, ht2⟩ := m2
  refine ⟨hs1.trans hs2.symm, hw1.trans hw2.symm, ?_⟩
  rcases ht1 with h1 | h1 <;> rcases ht2 with h2 | h2
  · exact Or.inl (Option.some.inj (h1.trans h2.symm))
  · exact Or.inr (Or.inl (Option.some.inj (h1.trans h2.symm)))
  · exact Or.inr (Or.inr (Or.inl (Option.some.inj (h1.trans h2.symm))))
  · exact Or.inr (Or.inr (Or.inr (Option.some.inj (h1.trans h2.symm))))

theorem teamUnique_eq {db : DB} (htu : TeamUnique db) {p : Pick} {g1 g2 : Game}
    (h1 : g1 ∈ db.games) (h2 : g2 ∈ db.games)
    (m1 : gameMatchesPick p g1 = true) (m2 : gameMatchesPick p g2 = true) : g1 = g2 := by
  by_contra hne
  have hsym : Symmetric (fun g1 g2 : Game => ¬ keyClash (matchKey g1) (matchKey g2)) := by
    intro a b hab hcl
    exact hab (keyClash_symm hcl)
  exact htu.forall hsym h1 h2 hne (matches_keyClash m1 m2)

/-! ## Settling the picks of a pass -/

theorem processPick_settles_self (now : Int) (db : DB) (q : Pick)
    (hndg : (db.games.map (·.game_id)).Nodup) (htu : TeamUnique db) :
    PickSettled now (processPick now db q) q := by
  cases h : db.games.find? (gameMatchesPick q) with
  | none =>
    rw [processPick_of_no_game h]
    intro g hg hm
    exact absurd hm (List.find?_eq_none.mp h g hg)
  | some g0 =>
    intro g' hg' hm'
    rw [processPick_games_of_found h] at hg'
    have hmem0 : g0 ∈ db.games := List.mem_of_find?_eq_some h
    have hmatch0 := List.find?_some h
    rcases (mem_updateFirst_key hndg).mp hg' with ⟨hmem, hkey⟩ | ⟨a, _, _, rfl⟩
    · have : g' = g0 := teamUnique_eq htu hmem hmem0 hm' hmatch0
      subst this
      simp at hkey
    · rw [processPick_results_find_own h]
      refine ⟨_, rfl, ?_, ?_, ?_⟩
      · rw [surviveStep_game_id, linkLockStep_game_id, stepGame_game_id]
      · intro hkick
        rw [surviveStep_is_locked, linkLockStep_is_locked]
        rw [stepGame_kickoff] at hkick
        simp [hkick]
      · intro hc'
        have hc : is_game_complete now g0 = true := (complete_stepGame now g0) ▸ hc'
        refine ⟨stepGame_status_final hc, ?_, ?_⟩
        · rw [stepGame_of_complete hc, deriveWinner_idem]
        · intro hh ha
          exact surviveStep_survived_of_complete _ hc hh ha

theorem processPick_preserves_settled (now : Int) (db : DB) (q p : Pick)
    (hne : p.pick_id ≠ q.pick_id) (hndg : (db.games.map (·.game_id)).Nodup)
    (hp : PickSettled now db p) : PickSettled now (processPick now db q) p := by
  cases h : db.games.find? (gameMatchesPick q) with
  | none =>
    rw [processPick_of_no_game h]
    exact hp
  | some g0 =>
    intro g' hg' hm'
    rw [processPick_games_of_found h] at hg'
    rw [processPick_results_find_other hne]
    rcases (mem_updateFirst_key hndg).mp hg' with ⟨hmem, _⟩ | ⟨a, _, _, rfl⟩
    · exact hp g' hmem hm'
    · have hmem0 : g0 ∈ db.games := List.mem_of_find?_eq_some h
      have hm0 : gameMatchesPick p g0 = true := by
        rw [← gameMatchesPick_congr p (stepGame_matchKey now g0)]
        exact hm'
      obtain ⟨pr, hfind, hlink, hlock, hcompl⟩ := hp g0 hmem0 hm0
      have hstep : stepGame now g0 = g0 :=
        stepGame_eq_self_of_settled (fun hc => ⟨(hcompl hc).1, (hcompl hc).2.1⟩)
      rw [hstep]
      exact ⟨pr, hfind, hlink, hlock, hcompl⟩

theorem processPick_id_of_settled (now : Int) (db : DB) (q : Pick)
    (hndg : (db.games.map (·.game_id)).Nodup) (hq : PickSettled now db q) :
    processPick now db q = db := by
  cases h : db.games.find? (gameMatchesPick q) with
  | none => exact processPick_of_no_game h
  | some g =>
    have hmem : g ∈ db.games := List.mem_of_find?_eq_some h
    have hmatch := List.find?_some h
    obtain ⟨pr, hfind, hlink, hlock, hcompl⟩ := hq g hmem hmatch
    have hstep : stepGame now g = g :=
      stepGame_eq_self_of_settled (fun hc => ⟨(hcompl hc).1, (hcompl hc).2.1⟩)
    have hll : linkLockStep now g pr = pr := by
      unfold linkLockStep
      have hfalse : (decide (now ≥ g.kickoff) && !pr.is_locked) = false := by
        by_cases hk : now ≥ g.kickoff
        · rw [hlock hk]
          simp
        · simp [hk]
      rw [if_neg (by rw [hfalse]; simp)]
      exact pr_set_game_id_self hlink
    have hsv : surviveStep now q.team_abbr g pr = pr := by
      unfold surviveStep
      by_cases hcond : (is_game_complete now g && (stepGame now g).home_score.isSome &&
          (stepGame now g).away_score.isSome) = true
      · rw [if_pos hcond]
        simp only [Bool.and_eq_true] at hcond
        obtain ⟨⟨hc, hh⟩, ha⟩ := hcond
        rw [hstep] at hh ha ⊢
        exact pr_set_survived_self ((hcompl hc).2.2 hh ha)
      · rw [if_neg hcond]
    rw [processPick_eq_found_some h hfind]
    have hgames : updateFirst (fun x => x.game_id == g.game_id) (fun _ => stepGame now g)
        db.games = db.games :=
      updateFirst_eq_self (find?_beq_key_of_mem hmem hndg) hstep
    have hres : updateFirst (fun r => r.pick_id == q.pick_id)
        (fun _ => surviveStep now q.team_abbr g (linkLockStep now g pr)) db.pick_results =
        db.pick_results := by
      refine updateFirst_eq_self hfind ?_
      rw [hll, hsv]
    rw [hgames, hres]

theorem teamUnique_of_matchKey_map_eq {db db' : DB}
    (h : db'.games.map matchKey = db.games.map matchKey) (htu : TeamUnique db) :
    TeamUnique db' := by
  unfold TeamUnique at htu ⊢
  have h1 : (db.games.map matchKey).Pairwise (fun k1 k2 => ¬ keyClash k1 k2) :=
    List.pairwise_map.mpr htu
  rw [← h] at h1
  exact List.pairwise_map.mp h1

theorem processPick_inv (now : Int) (db : DB) (q : Pick) (hq : q ∈ db.picks)
    (hWF : WF db) (htu : TeamUnique db) :
    WF (processPick now db q) ∧ TeamUnique (processPick now db q) ∧
    (processPick now db q).picks = db.picks ∧
    (processPick now db q).next_pick_id = db.next_pick_id ∧
    (processPick now db q).games.map matchKey = db.games.map matchKey ∧
    (processPick now db q).games.map (·.game_id) = db.games.map (·.game_id) := by
  obtain ⟨hpnd, hrnd, hgnd, hpb, hrb⟩ := hWF
  have hgmk := processPick_games_map matchKey now db q (stepGame_matchKey now) hgnd
  have hgid := processPick_games_map (·.game_id) now db q (stepGame_game_id now) hgnd
  have hids := @processPick_results_ids now db q
  refine ⟨⟨?_, ?_, ?_, ?_, ?_⟩,
    teamUnique_of_matchKey_map_eq hgmk htu,
    processPick_picks now db q, processPick_next_pick_id now db q, hgmk, hgid⟩
  · rw [processPick_picks]
    exact hpnd
  · rcases hids with h | ⟨h, hnone⟩
    · rw [h]
      exact hrnd
    · rw [h]
      rw [List.nodup_append]
      refine ⟨hrnd, List.nodup_singleton _, ?_⟩
      intro a ha hb
      rcases List.mem_singleton.mp hb with rfl
      obtain ⟨r0, hr0, hr0id⟩ := List.mem_map.mp ha
      have := List.find?_eq_none.mp hnone r0 hr0
      simp only [Bool.not_eq_true] at this
      rw [hr0id] at this
      simp at this
  · rw [hgid]
    exact hgnd
  · rw [processPick_picks, processPick_next_pick_id]
    exact hpb
  · intro r hr
    rw [processPick_next_pick_id]
    have hmemid : r.pick_id ∈ (processPick now db q).pick_results.map (·.pick_id) :=
      List.mem_map_of_mem _ hr
    rcases hids with h | ⟨h, _⟩
    · rw [h] at hmemid
      obtain ⟨r0, hr0, hr0id⟩ := List.mem_map.mp hmemid
      exact hr0id ▸ hrb r0 hr0
    · rw [h] at hmemid
      rcases List.mem_append.mp hmemid with hm | hm
      · obtain ⟨r0, hr0, hr0id⟩ := List.mem_map.mp hm
        exact hr0id ▸ hrb r0 hr0
      · rcases List.mem_singleton.mp hm with hEq
        exact hEq ▸ hpb q hq

theorem fold_inv (now : Int) : ∀ (l : List Pick) (db : DB), WF db → TeamUnique db →
    (∀ x ∈ l, x ∈ db.picks) →
    WF (l.foldl (processPick now) db) ∧ TeamUnique (l.foldl (processPick now) db) ∧
    (l.foldl (processPick now) db).picks = db.picks ∧
    (l.foldl (processPick now) db).next_pick_id = db.next_pick_id ∧
    (l.foldl (processPick now) db).games.map matchKey = db.games.map matchKey ∧
    (l.foldl (processPick now) db).games.map (·.game_id) = db.games.map (·.game_id) := by
  intro l
  induction l with
  | nil =>
    intro db hWF htu _
    exact ⟨hWF, htu, rfl, rfl, rfl, rfl⟩
  | cons x xs ih =>
    intro db hWF htu hsub
    obtain ⟨hWF1, htu1, hpicks1, hnext1, hmk1, hid1⟩ :=
      processPick_inv now db x (hsub x (List.mem_cons_self x xs)) hWF htu
    obtain ⟨hWF2, htu2, hpicks2, hnext2, hmk2, hid2⟩ :=
      ih (processPick now db x) hWF1 htu1
        (fun y hy => hpicks1 ▸ hsub y (List.mem_cons_of_mem x hy))
    exact ⟨hWF2, htu2, hpicks2.trans hpicks1, hnext2.trans hnext1,
      hmk2.trans hmk1, hid2.trans hid1⟩

theorem fold_settles (now : Int) : ∀ (l : List Pick) (db : DB), WF db → TeamUnique db →
    (∀ x ∈ l, x ∈ db.picks) → ((l.map (·.pick_id)).Nodup) →
    (∀ p ∈ l, PickSettled now (l.foldl (processPick now) db) p) ∧
    (∀ p : Pick, (∀ x ∈ l, p.pick_id ≠ x.pick_id) → PickSettled now db p →
      PickSettled now (l.foldl (processPick now) db) p) := by
  intro l
  induction l with
  | nil =>
    intro db _ _ _ _
    exact ⟨fun p hp => absurd hp (List.not_mem_nil p), fun p _ hp => hp⟩
  | cons x xs ih =>
    intro db hWF htu hsub hlnd
    have hx : x ∈ db.picks := hsub x (List.mem_cons_self x xs)
    obtain ⟨hWF1, htu1, hpicks1, _, _, _⟩ := processPick_inv now db x hx hWF htu
    have hsub1 : ∀ y ∈ xs, y ∈ (processPick now db x).picks :=
      fun y hy => hpicks1 ▸ hsub y (List.mem_cons_of_mem x hy)
    simp only [List.map_cons, List.nodup_cons] at hlnd
    obtain ⟨hsettles, hpres⟩ := ih (processPick now db x) hWF1 htu1 hsub1 hlnd.2
    constructor
    · intro p hp
      rcases List.mem_cons.mp hp with rfl | hp'
      · refine hpres p ?_ (processPick_settles_self now db p hWF.2.2.1 htu)
        intro y hy hEq
        exact hlnd.1 (hEq ▸ List.mem_map_of_mem _ hy)
      · exact hsettles p hp'
    · intro p hdisj hp
      refine hpres p (fun y hy => hdisj y (List.mem_cons_of_mem x hy)) ?_
      exact processPick_preserves_settled now db x p (hdisj x (List.mem_cons_self x xs))
        hWF.2.2.1 hp

theorem fold_id_of_settled (now : Int) (l : List Pick) (db : DB)
    (hndg : (db.games.map (·.game_id)).Nodup) (hall : ∀ p ∈ l, PickSettled now db p) :
    l.foldl (processPick now) db = db :=
  foldl_fixed (fun p hp => processPick_id_of_settled now db p hndg (hall p hp))

/-! ## Claim C2, amended -/

/-- C2 amended: after the per-week pass, for every pick of that week and
season linked to a complete game with both scores present, survival obeys
the rule: `survived = (pick.team == winner)` when the winner is set, and
`survived = false` when the winner is unset (a tie).  (The claim as stated
omits "both scores present"; a final game carrying a winner but no scores
is skipped by the survival assignment — see the counterexample.) -/
theorem c2_amended_survival_rule (season now w : Int) (db : DB) (p : Pick) (t : String)
    (hWF : WF db) (htu : TeamUnique db) (hp : p ∈ db.picks) (hseason : p.season = season)
    (hweek : p.week = w) (hteam : p.team_abbr = some t) :
    ∀ g ∈ (update_pick_results season now db w).games, gameMatchesPick p g = true →
      is_game_complete now g = true →
      ∃ pr, (update_pick_results season now db w).pick_results.find?
          (fun r => r.pick_id == p.pick_id) = some pr ∧
        (∀ wn, g.winner_abbr = some wn → g.home_score.isSome = true →
          g.away_score.isSome = true → pr.survived = some (t == wn)) ∧
        (g.winner_abbr = none → g.home_score.isSome = true → g.away_score.isSome = true →
          pr.survived = some false) := by
  have hsub : ∀ x ∈ (db.picks.filter fun q =>
      q.season == season && q.week == w && q.team_abbr.isSome), x ∈ db.picks :=
    fun x hx => (List.mem_filter.mp hx).1
  have hlnd : (((db.picks.filter fun q =>
      q.season == season && q.week == w && q.team_abbr.isSome).map (·.pick_id))).Nodup :=
    List.Nodup.sublist (List.Sublist.map _ (List.filter_sublist _)) hWF.1
  have hpmem : p ∈ db.picks.filter fun q =>
      q.season == season && q.week == w && q.team_abbr.isSome :=
    List.mem_filter.mpr ⟨hp, by simp [hseason, hweek, hteam]⟩
  obtain ⟨hset, _⟩ := fold_settles now
    (db.picks.filter fun q => q.season == season && q.week == w && q.team_abbr.isSome)
    db hWF htu hsub hlnd
  have hps := hset p hpmem
  intro g hg hm hcomplete
  obtain ⟨pr, hfind, _, _, hcompl⟩ := hps g hg hm
  obtain ⟨_, _, hsurv⟩ := hcompl hcomplete
  refine ⟨pr, hfind, ?_, ?_⟩
  · intro wn hwn hh ha
    rw [hsurv hh ha]
    simp [survivalOf, hwn, hteam]
  · intro hwn hh ha
    rw [hsurv hh ha]
    simp [survivalOf, hwn]

/-- C2 witness: the settled week-3 pick on KC over the final 24-20 game
carries `survived = (KC == KC) = true`. -/
theorem c2_witness :
    ∃ pr, (update_pick_results 2025 2000 dbKCFinal 3).pick_results.find?
        (fun r => r.pick_id == pKCWk3.pick_id) = some pr ∧ pr.survived = some true := by
  have h := c2_amended_survival_rule 2025 2000 3 dbKCFinal pKCWk3 "KC"
    (by constructor <;> simp [dbKCFinal, WF, pKCWk3]) (by simp [TeamUnique, dbKCFinal])
    (by simp [dbKCFinal]) rfl rfl rfl
  have hgmem : gKCFinal ∈ (update_pick_results 2025 2000 dbKCFinal 3).games := by decide
  obtain ⟨pr, hfind, hw, _⟩ := h gKCFinal hgmem (by decide) (by decide)
  refine ⟨pr, hfind, ?_⟩
  rw [hw "KC" rfl (by decide) (by decide)]
  rfl

/-! ## The stuck-game finalizer -/

theorem deriveWinnerStuck_shape (g : Game) :
    deriveWinnerStuck g = g ∨
      deriveWinnerStuck g = { g with winner_abbr := some g.home_team } ∨
      deriveWinnerStuck g = { g with winner_abbr := some g.away_team } := by
  rcases g with ⟨gid, se, wk, ko, ht, aw, st, hs, as_, wn, ps, ft⟩
  rcases wn with _ | w
  · rcases hs with _ | hsv
    · exact Or.inl rfl
    · rcases as_ with _ | asv
      · exact Or.inl rfl
      · unfold deriveWinnerStuck
        dsimp only
        by_cases h1 : hsv > asv
        · rw [if_pos h1]
          exact Or.inr (Or.inl rfl)
        · rw [if_neg h1]
          by_cases h2 : asv > hsv
          · rw [if_pos h2]
            exact Or.inr (Or.inr rfl)
          · rw [if_neg h2]
            exact Or.inl rfl
  · exact Or.inl rfl

theorem deriveWinnerStuck_game_id (g : Game) : (deriveWinnerStuck g).game_id = g.game_id := by
  rcases deriveWinnerStuck_shape g with h | h | h <;> rw [h]

theorem deriveWinnerStuck_matchKey (g : Game) :
    matchKey (deriveWinnerStuck g) = matchKey g := by
  rcases deriveWinnerStuck_shape g with h | h | h <;> rw [h] <;> rfl

theorem deriveWinnerStuck_status (g : Game) : (deriveWinnerStuck g).status = g.status := by
  rcases deriveWinnerStuck_shape g with h | h | h <;> rw [h]

theorem deriveWinnerStuck_kickoff (g : Game) : (deriveWinnerStuck g).kickoff = g.kickoff := by
  rcases deriveWinnerStuck_shape g with h | h | h <;> rw [h]

theorem deriveWinnerStuck_home_score (g : Game) :
    (deriveWinnerStuck g).home_score = g.home_score := by
  rcases deriveWinnerStuck_shape g with h | h | h <;> rw [h]

theorem deriveWinnerStuck_away_score (g : Game) :
    (deriveWinnerStuck g).away_score = g.away_score := by
  rcases deriveWinnerStuck_shape g with h | h | h <;> rw [h]

theorem deriveWinnerStuck_of_winner_some {g : Game} {w : String}
    (h : g.winner_abbr = some w) : deriveWinnerStuck g = g := by
  rcases g with ⟨gid, se, wk, ko, ht, aw, st, hs, as_, wn, ps, ft⟩
  subst h
  rfl

theorem deriveWinner_winner_none {g : Game} {hs aws : Int} (hw : g.winner_abbr = none)
    (hh : g.home_score = some hs) (ha : g.away_score = some aws) :
    (deriveWinner g).winner_abbr =
      (if hs > aws then some g.home_team
       else if aws > hs then some g.away_team else none) := by
  rcases g with ⟨gid, se, wk, ko, ht, aw, st, hs0, as0, wn, ps, ft⟩
  subst hw
  subst hh
  subst ha
  unfold deriveWinner
  dsimp only
  split_ifs <;> rfl

theorem deriveWinnerStuck_winner_none {g : Game} {hs aws : Int} (hw : g.winner_abbr = none)
    (hh : g.home_score = some hs) (ha : g.away_score = some aws) :
    (deriveWinnerStuck g).winner_abbr =
      (if hs > aws then some g.home_team
       else if aws > hs then some g.away_team else none) := by
  rcases g with ⟨gid, se, wk, ko, ht, aw, st, hs0, as0, wn, ps, ft⟩
  subst hw
  subst hh
  subst ha
  unfold deriveWinnerStuck
  dsimp only
  split_ifs <;> rfl

theorem finalizeStuckGame_games (now : Int) (db : DB) (g : Game) :
    (finalizeStuckGame now db g).games =
      (if now - g.kickoff > 14400 then
        updateFirst (fun x => x.game_id == g.game_id)
          (fun _ => deriveWinnerStuck { g with status := GStatus.final }) db.games
       else db.games) := by
  unfold finalizeStuckGame
  by_cases h4 : decide (now - g.kickoff > 14400) = true
  · rw [if_pos h4, if_pos (of_decide_eq_true h4)]
    refine (foldl_pres (fun d : DB => d.games) (fun d p _ => ?_) _).trans rfl
    cases hf : d.pick_results.find? (fun r => r.pick_id == p.pick_id) with
    | none => simp [hf]
    | some pr => simp only [hf]
  · rw [if_neg h4, if_neg (fun hc => h4 (decide_eq_true hc))]

theorem finalizeStuckGame_find_other (now : Int) (db : DB) (g : Game) (k : String)
    (hk : (g.game_id == k) = false) :
    (finalizeStuckGame now db g).games.find? (fun x => x.game_id == k) =
      db.games.find? (fun x => x.game_id == k) := by
  rw [finalizeStuckGame_games]
  by_cases h4 : now - g.kickoff > 14400
  · rw [if_pos h4]
    refine find?_updateFirst_other (fun a ha hPa => ⟨?_, ?_⟩)
    · have : a.game_id = g.game_id := eq_of_beq hPa
      rw [this]
      exact hk
    · rw [deriveWinnerStuck_game_id]
      exact hk
  · rw [if_neg h4]

theorem finalizeStuckGame_find_self (now : Int) (db : DB) (g : Game)
    (hfind : db.games.find? (fun x => x.game_id == g.game_id) = some g) :
    (finalizeStuckGame now db g).games.find? (fun x => x.game_id == g.game_id) =
      some (if now - g.kickoff > 14400 then
        deriveWinnerStuck { g with status := GStatus.final } else g) := by
  rw [finalizeStuckGame_games]
  by_cases h4 : now - g.kickoff > 14400
  · rw [if_pos h4, if_pos h4]
    refine find?_updateFirst_found hfind ?_
    rw [deriveWinnerStuck_game_id]
    simp
  · rw [if_neg h4, if_neg h4]
    exact hfind

theorem finalize_fold_find (now : Int) : ∀ (sl : List Game) (d : DB),
    ((sl.map (·.game_id)).Nodup) →
    (∀ h ∈ sl, d.games.find? (fun x => x.game_id == h.game_id) = some h) →
    (∀ h ∈ sl, (sl.foldl (finalizeStuckGame now) d).games.find?
        (fun x => x.game_id == h.game_id) =
      some (if now - h.kickoff > 14400 then
        deriveWinnerStuck { h with status := GStatus.final } else h)) ∧
    (∀ k : String, (∀ h ∈ sl, (h.game_id == k) = false) →
      (sl.foldl (finalizeStuckGame now) d).games.find? (fun x => x.game_id == k) =
        d.games.find? (fun x => x.game_id == k)) := by
  intro sl
  induction sl with
  | nil =>
    intro d _ _
    exact ⟨fun h hh => absurd hh (List.not_mem_nil h), fun k _ => rfl⟩
  | cons x xs ih =>
    intro d hnd hall
    simp only [List.map_cons, List.nodup_cons] at hnd
    have hall1 : ∀ h ∈ xs, (finalizeStuckGame now d x).games.find?
        (fun y => y.game_id == h.game_id) = some h := by
      intro h hh
      rw [finalizeStuckGame_find_other now d x h.game_id (by
        rw [Bool.eq_false_iff]
        intro hEq
        exact hnd.1 ((eq_of_beq hEq) ▸ List.mem_map_of_mem _ hh))]
      exact hall h (List.mem_cons_of_mem x hh)
    obtain ⟨ihself, ihframe⟩ := ih (finalizeStuckGame now d x) hnd.2 hall1
    constructor
    · intro h hh
      rcases List.mem_cons.mp hh with rfl | hh'
      · rw [List.foldl_cons]
        rw [ihframe h.game_id (fun h' hh' => by
          rw [Bool.eq_false_iff]
          intro hEq
          exact hnd.1 ((eq_of_beq hEq) ▸ List.mem_map_of_mem _ hh'))]
        exact finalizeStuckGame_find_self now d h (hall h hh)
      · exact ihself h hh'
    · intro k hk
      rw [List.foldl_cons]
      rw [ihframe k (fun h' hh' => hk h' (List.mem_cons_of_mem x hh'))]
      exact finalizeStuckGame_find_other now d x k (hk x (List.mem_cons_self x xs))

theorem finalize_stuck_games_find (season now : Int) (db : DB)
    (hnd : (db.games.map (·.game_id)).Nodup) :
    (∀ g ∈ db.games, stuckFilter season g = true →
      (finalize_stuck_games season now db).games.find? (fun x => x.game_id == g.game_id) =
        some (if now - g.kickoff > 14400 then
          deriveWinnerStuck { g with status := GStatus.final } else g)) ∧
    (∀ g ∈ db.games, stuckFilter season g = false →
      (finalize_stuck_games season now db).games.find? (fun x => x.game_id == g.game_id) =
        some g) := by
  have hslnd : ((db.games.filter (stuckFilter season)).map (·.game_id)).Nodup :=
    List.Nodup.sublist (List.Sublist.map _ (List.filter_sublist _)) hnd
  have hall : ∀ h ∈ db.games.filter (stuckFilter season),
      db.games.find? (fun x => x.game_id == h.game_id) = some h :=
    fun h hh => find?_beq_key_of_mem (List.mem_filter.mp hh).1 hnd
  obtain ⟨hself, hframe⟩ := finalize_fold_find now (db.games.filter (stuckFilter season))
    db hslnd hall
  constructor
  · intro g hg hstuck
    exact hself g (List.mem_filter.mpr ⟨hg, hstuck⟩)
  · intro g hg hstuck
    rw [finalize_stuck_games]
    rw [hframe g.game_id (fun h hh => by
      rw [Bool.eq_false_iff]
      intro hEq
      have hhg : h = g := eq_of_mem_of_key_eq (List.mem_filter.mp hh).1 hg (eq_of_beq hEq) hnd
      have hgt : stuckFilter season g = true := by
        have hmf := (List.mem_filter.mp hh).2
        rwa [hhg] at hmf
      rw [hstuck] at hgt
      exact Bool.false_ne_true hgt)]
    exact find?_beq_key_of_mem hg hnd

theorem processPick_game_updated {now : Int} {db : DB} {p : Pick} {g : Game}
    (h : db.games.find? (gameMatchesPick p) = some g)
    (hnd : (db.games.map (·.game_id)).Nodup) :
    (processPick now db p).games.find? (fun x => x.game_id == g.game_id) =
      some (stepGame now g) := by
  rw [processPick_games_of_found h]
  refine find?_updateFirst_found (find?_beq_key_of_mem (List.mem_of_find?_eq_some h) hnd) ?_
  rw [stepGame_game_id]
  simp

/-! ## Claim C3: completion rule and winner derivation in both passes -/

/-- C3: (1) a game is treated as complete iff its status is final or both
scores are present and kickoff was more than 4 hours ago; (2) the per-pick
pass replaces the matched game by its completed form; (3) an incomplete
game is left untouched; (4) on completion the status is forced final, a
set winner is kept, and an unset winner is derived by score comparison,
ties staying unset; (5)-(7) the stuck-game finalizer does the same to every
non-final game of the season with both scores and kickoff > 4h ago, and
leaves other stuck candidates unchanged. -/
theorem c3_completion_and_finalization (now season : Int) (db : DB)
    (hnd : (db.games.map (·.game_id)).Nodup) :
    (∀ g : Game, is_game_complete now g =
      (decide (g.status = GStatus.final) ||
        (g.home_score.isSome && g.away_score.isSome && decide (now - g.kickoff > 14400)))) ∧
    (∀ (p : Pick) (g : Game), db.games.find? (gameMatchesPick p) = some g →
      (processPick now db p).games.find? (fun x => x.game_id == g.game_id) =
        some (stepGame now g)) ∧
    (∀ g : Game, is_game_complete now g = false → stepGame now g = g) ∧
    (∀ g : Game, is_game_complete now g = true →
      (stepGame now g).status = GStatus.final ∧
      (∀ w, g.winner_abbr = some w → (stepGame now g).winner_abbr = some w) ∧
      (∀ hs aws : Int, g.winner_abbr = none → g.home_score = some hs →
        g.away_score = some aws →
        (stepGame now g).winner_abbr =
          (if hs > aws then some g.home_team
           else if aws > hs then some g.away_team else none))) ∧
    (∀ g ∈ db.games, stuckFilter season g = true → now - g.kickoff > 14400 →
      (finalize_stuck_games season now db).games.find? (fun x => x.game_id == g.game_id) =
        some (deriveWinnerStuck { g with status := GStatus.final })) ∧
    (∀ g : Game,
      (deriveWinnerStuck { g with status := GStatus.final }).status = GStatus.final ∧
      (∀ w, g.winner_abbr = some w →
        (deriveWinnerStuck { g with status := GStatus.final }).winner_abbr = some w) ∧
      (∀ hs aws : Int, g.winner_abbr = none → g.home_score = some hs →
        g.away_score = some aws →
        (deriveWinnerStuck { g with status := GStatus.final }).winner_abbr =
          (if hs > aws then some g.home_team
           else if aws > hs then some g.away_team else none))) ∧
    (∀ g ∈ db.games, stuckFilter season g = true → ¬(now - g.kickoff > 14400) →
      (finalize_stuck_games season now db).games.find? (fun x => x.game_id == g.game_id) =
        some g) := by
  obtain ⟨hfself, hfframe⟩ := finalize_stuck_games_find season now db hnd
  refine ⟨?_, ?_, ?_, ?_, ?_, ?_, ?_⟩
  · intro g
    unfold is_game_complete
    by_cases h1 : g.status = GStatus.final
    · simp [h1]
    · rw [if_neg (by simp [h1])]
      by_cases h2 : (g.home_score.isSome && g.away_score.isSome) = true
      · rw [if_pos h2]
        simp only [Bool.and_eq_true] at h2
        simp [h1, h2.1, h2.2]
      · rw [if_neg h2]
        rcases Bool.and_eq_false_iff.mp (Bool.not_eq_true _ ▸ h2) with h3 | h3 <;>
          simp [h1, h3]
  · intro p g h
    exact processPick_game_updated h hnd
  · intro g h
    exact stepGame_of_not_complete h
  · intro g hc
    refine ⟨stepGame_status_final hc, ?_, ?_⟩
    · intro w hw
      rw [stepGame_of_complete hc,
        @deriveWinner_of_winner_some { g with status := GStatus.final } w hw]
      exact hw
    · intro hs aws hw hh ha
      rw [stepGame_of_complete hc]
      exact @deriveWinner_winner_none { g with status := GStatus.final } hs aws hw hh ha
  · intro g hg hstuck h4
    rw [hfself g hg hstuck, if_pos h4]
  · intro g
    refine ⟨?_, ?_, ?_⟩
    · rw [deriveWinnerStuck_status]
    · intro w hw
      rw [@deriveWinnerStuck_of_winner_some { g with status := GStatus.final } w hw]
      exact hw
    · intro hs aws hw hh ha
      exact @deriveWinnerStuck_winner_none { g with status := GStatus.final } hs aws hw hh ha
  · intro g hg hstuck h4
    rw [hfself g hg hstuck, if_neg h4]

/-- C3 witness: the stalled 30-13 game is complete by the 4-hour rule, and
the finalizer forces it final with SF derived as the winner. -/
theorem c3_witness :
    is_game_complete 20000 gStuck = true ∧
    (finalize_stuck_games 2025 20000 dbStuck).games.find?
        (fun x => x.game_id == gStuck.game_id) =
      some (deriveWinnerStuck { gStuck with status := GStatus.final }) ∧
    (deriveWinnerStuck { gStuck with status := GStatus.final }).status = GStatus.final ∧
    (deriveWinnerStuck { gStuck with status := GStatus.final }).winner_abbr = some "SF" := by
  obtain ⟨hiff, _, _, _, hfin, hdws, _⟩ :=
    c3_completion_and_finalization 20000 2025 dbStuck (by decide)
  refine ⟨?_, ?_, (hdws gStuck).1, by decide⟩
  · rw [hiff gStuck]
    decide
  · exact hfin gStuck (by decide) (by decide) (by decide)

/-! ## Job-meta bookkeeping lemmas -/

theorem update_job_meta_committed (now : Int) (nm st msg : String) (s : Session) :
    (update_job_meta now nm st msg s).committed.core = s.current.core ∧
    (update_job_meta now nm st msg s).committed.players = s.current.players :=
  ⟨rfl, rfl⟩

theorem find?_bumpJobMeta (now : Int) (nm st msg : String) (rows : List JobMetaRow) :
    ((bumpJobMeta now nm st msg rows).find? fun r => r.job_name == nm).map (·.status) =
      some st := by
  unfold bumpJobMeta
  by_cases h : rows.any (fun r => r.job_name == nm)
  · rw [if_pos h]
    have hsome : (rows.find? fun r => r.job_name == nm).isSome := by
      rw [List.find?_isSome]
      obtain ⟨r, hr, hpr⟩ := List.any_eq_true.mp h
      exact ⟨r, hr, hpr⟩
    obtain ⟨r0, hr0⟩ := Option.isSome_iff_exists.mp hsome
    have hkeep0 := List.find?_some hr0
    have hkeep : ((stampRow now st msg r0).job_name == nm) = true := hkeep0
    rw [find?_updateFirst_found hr0 hkeep]
    rfl
  · rw [if_neg h]
    have hnone : rows.find? (fun r => r.job_name == nm) = none := by
      rw [List.find?_eq_none]
      intro r hr hpr
      exact h (List.any_eq_true.mpr ⟨r, hr, hpr⟩)
    rw [find?_append_none hnone]
    rw [List.find?_cons_of_pos _ (by simp [stampRow])]
    rfl

theorem jobStatus_update_job_meta (now : Int) (nm st msg : String) (s : Session) :
    jobStatus (update_job_meta now nm st msg s).committed nm = some st :=
  find?_bumpJobMeta now nm st msg s.current.job_meta

/-! ## Claim C6: lock acquisition semantics (code bug evidence) -/

/-- C6: the claim (and the docstring of `advisory_lock`) says acquisition
blocks for up to `timeout_seconds` and fails with LockBusy only once the
timeout has elapsed.  The source issues a single non-blocking
`pg_try_advisory_lock` and raises immediately: with the lock held and a
300-second timeout, the failure is raised after 0 seconds, strictly before
the timeout. -/
theorem c6_lock_raises_immediately :
    advisory_lock "postgresql" false 300 = LockAttempt.raisedBusy 0 ∧ (0 : Int) < 300 ∧
      advisory_lock "postgresql" true 300 = LockAttempt.acquired true := by
  refine ⟨rfl, by decide, rfl⟩

/-! ## Claim C7: lock contention leaves the pool data untouched -/

/-- C7: a score-update run that fails to acquire the advisory lock leaves
every Game, Pick, PickResult and Player row as it was, returns without
running the body, and records the status `skipped` in the job-meta table
(the persisted JobRunRecord through which a run reports its status). -/
theorem c7_lock_busy_zero_writes (season now current_week : Int) (games : List Game)
    (fetch_odds : Bool) (odds_data : String → Option OddsEntry) (failMid : Option FullDB)
    (d0 : FullDB) :
    (scoreUpdaterRun "postgresql" true season now current_week games fetch_odds odds_data
        failMid d0).1.committed.core = d0.core ∧
    (scoreUpdaterRun "postgresql" true season now current_week games fetch_odds odds_data
        failMid d0).1.committed.players = d0.players ∧
    (scoreUpdaterRun "postgresql" true season now current_week games fetch_odds odds_data
        failMid d0).2 = "skipped" ∧
    jobStatus (scoreUpdaterRun "postgresql" true season now current_week games fetch_odds
        odds_data failMid d0).1.committed "update_scores" = some "skipped" := by
  refine ⟨rfl, rfl, rfl, ?_⟩
  exact jobStatus_update_job_meta now "update_scores" "skipped"
    "Skipped score update (lock busy)" { committed := d0, current := d0 }

/-! ## Claim C5: transaction confinement -/

/-- C5 counterexample: the sheet-resync commits its delete of Picks and
Players (source line 108) before rebuilding, so a failure during the
rebuild leaves the deleted-but-not-rebuilt state committed: the aborted
run ends with the season's picks and all players gone, not with the
pre-run state restored. -/
theorem c5_counterexample :
    (ingest_players_and_picks "postgresql" false 2025 0 1 [("Ada", [(1, "KC")])]
        "google_sheets" (some d0Resync) d0Resync).1.committed.core.picks = [] ∧
    (ingest_players_and_picks "postgresql" false 2025 0 1 [("Ada", [(1, "KC")])]
        "google_sheets" (some d0Resync) d0Resync).1.committed.players = [] ∧
    d0Resync.core.picks ≠ [] ∧
    (ingest_players_and_picks "postgresql" false 2025 0 1 [("Ada", [(1, "KC")])]
        "google_sheets" (some d0Resync) d0Resync).2 = false := by
  refine ⟨rfl, rfl, by decide, rfl⟩

/-- C5 amended: the score-update run is atomic — an exception at any point
of its body rolls every Game/Pick/PickResult/Player write back — but the
sheet-resync is not: its delete phase is committed in a separate, earlier
transaction, so an aborted resync ends committed at exactly the
post-delete state (season's picks and their results deleted, players
cleared), not at the pre-run state. -/
theorem c5_amended_transaction_boundaries :
    (∀ (season now current_week : Int) (games : List Game) (fetch_odds : Bool)
        (odds_data : String → Option OddsEntry) (partialCur d0 : FullDB),
      (scoreUpdaterRun "postgresql" false season now current_week games fetch_odds odds_data
          (some partialCur) d0).1.committed.core = d0.core ∧
      (scoreUpdaterRun "postgresql" false season now current_week games fetch_odds odds_data
          (some partialCur) d0).1.committed.players = d0.players) ∧
    (∀ (season now current_week : Int) (players_data : List (String × List (Int × String)))
        (source_label : String) (partialCur d0 : FullDB),
      (ingest_players_and_picks "postgresql" false season now current_week players_data
          source_label (some partialCur) d0).1.committed = deletePhase season d0) :=
  ⟨fun _ _ _ _ _ _ _ _ => ⟨rfl, rfl⟩, fun _ _ _ _ _ _ _ => rfl⟩

/-! ## Claim C9: odds merge never erases known odds -/

/-- C9: upserting over an existing game overwrites `point_spread` and
`favorite_team` only when the incoming value is non-null; a null incoming
value leaves the stored value untouched. -/
theorem c9_null_odds_never_erase (db : DB) (gd ex : Game)
    (hfind : db.games.find? (fun x => x.game_id == gd.game_id) = some ex) :
    ∃ ex', (upsert_game db gd).games.find? (fun x => x.game_id == gd.game_id) = some ex' ∧
      ex'.point_spread = (if gd.point_spread.isSome then gd.point_spread else ex.point_spread) ∧
      ex'.favorite_team = (if gd.favorite_team.isSome then gd.favorite_team else ex.favorite_team) := by
  have hex := List.find?_some hfind
  unfold upsert_game
  rw [hfind]
  by_cases hs : gd.point_spread.isSome <;> by_cases hf : gd.favorite_team.isSome <;>
    simp only [hs, hf, if_true, if_false, Bool.false_eq_true] <;>
    refine ⟨_, find?_updateFirst_found hfind (by simpa using hex), by simp [hs, hf]⟩

/-- C9 witness: a stored spread/favorite survives an upsert whose feed row
carries null odds. -/
theorem c9_witness :
    dbOddsKnown.games.find? (fun x => x.game_id == gOddsIncoming.game_id) = some gOddsKnown ∧
    ∃ ex', (upsert_game dbOddsKnown gOddsIncoming).games.find?
        (fun x => x.game_id == gOddsIncoming.game_id) = some ex' ∧
      ex'.point_spread = (if gOddsIncoming.point_spread.isSome then gOddsIncoming.point_spread
        else gOddsKnown.point_spread) ∧
      ex'.favorite_team = (if gOddsIncoming.favorite_team.isSome then gOddsIncoming.favorite_team
        else gOddsKnown.favorite_team) :=
  ⟨rfl, c9_null_odds_never_erase dbOddsKnown gOddsIncoming gOddsKnown rfl⟩

/-! ## Claim C10: the stuck-game finalizer never creates result rows -/

theorem finalizeStuckGame_row_shape (now : Int) (db : DB) (g : Game) :
    ((finalizeStuckGame now db g).pick_results.map fun r => { r with survived := none }) =
      (db.pick_results.map fun r => { r with survived := none }) ∧
    (finalizeStuckGame now db g).picks = db.picks := by
  unfold finalizeStuckGame
  by_cases h4 : decide (now - g.kickoff > 14400) = true
  · rw [if_pos h4]
    constructor
    · refine foldl_pres (fun d : DB => d.pick_results.map fun r => { r with survived := none })
        (fun d p _ => ?_) _
      cases hf : d.pick_results.find? (fun r => r.pick_id == p.pick_id) with
      | none => simp [hf]
      | some pr => simp only [hf]; exact updateFirst_map_find? hf rfl
    · refine foldl_pres (fun d : DB => d.picks) (fun d p _ => ?_) _
      cases hf : d.pick_results.find? (fun r => r.pick_id == p.pick_id) with
      | none => simp [hf]
      | some pr => simp only [hf]
  · rw [if_neg h4]
    exact ⟨rfl, rfl⟩

/-- C10: the stuck-game finalizer neither creates nor deletes PickResult
rows and changes nothing but their `survived` field (and never touches the
picks); a pick with no result row before the repair pass still has none
after it. -/
theorem c10_finalizer_never_creates_rows (season now : Int) (db : DB) :
    ((finalize_stuck_games season now db).pick_results.map fun r => { r with survived := none }) =
      (db.pick_results.map fun r => { r with survived := none }) ∧
    (finalize_stuck_games season now db).picks = db.picks := by
  unfold finalize_stuck_games
  constructor
  · exact foldl_pres (fun d : DB => d.pick_results.map fun r => { r with survived := none })
      (fun d g _ => (finalizeStuckGame_row_shape now d g).1) _
  · exact foldl_pres (fun d : DB => d.picks) (fun d g _ => (finalizeStuckGame_row_shape now d g).2) _

/-! ## Counterexamples for C1, C2 and C8 -/

/-- C1 counterexample: on a state violating the one-game-per-team
invariant (KC listed in two week-1 games), the first full engine pass ends
with the pick's `survived = false` (set by the stuck-game finalizer from
the second game) while a second identical pass rewrites it to `true` (from
the first game), so the second run is not write-free. -/
theorem c1_counterexample :
    ((process_all_eliminations 2025 20000 1 dbDoubleMatch).pick_results.find?
        (fun r => r.pick_id == 1)).map (·.survived) = some (some false) ∧
    ((process_all_eliminations 2025 20000 1 (process_all_eliminations 2025 20000 1
        dbDoubleMatch)).pick_results.find? (fun r => r.pick_id == 1)).map (·.survived) =
      some (some true) ∧
    process_all_eliminations 2025 20000 1 (process_all_eliminations 2025 20000 1 dbDoubleMatch) ≠
      process_all_eliminations 2025 20000 1 dbDoubleMatch := by
  refine ⟨rfl, rfl, by decide⟩

/-- C2 counterexample: a pick linked to a complete game (status final)
whose winner is set but whose scores are null keeps `survived = NULL`
after a full engine pass — the survival rule is not applied, so
`survived = (pick.team == winner)` fails for this pick. -/
theorem c2_counterexample :
    is_game_complete 2000 gFinalNoScores = true ∧
    gFinalNoScores.winner_abbr = some "KC" ∧
    pOnKC.team_abbr = some "KC" ∧
    gameMatchesPick pOnKC gFinalNoScores = true ∧
    ((process_all_eliminations 2025 2000 1 dbWinnerNoScores).pick_results.find?
        (fun r => r.pick_id == 1)) =
      some { pick_id := 1, game_id := some "g1", is_valid := true, is_locked := true, survived := none } := by
  refine ⟨by decide, rfl, rfl, by decide, rfl⟩

/-- C8 counterexample: player 5 is eliminated (a week-1 `survived=false`
result), yet `update_pick_results` still processes the player's week-2
pick: it creates the missing PickResult row, locks it and computes its
survival — the eliminated player is not excluded from that pass. -/
theorem c8_counterexample :
    isEliminated 2025 dbEliminatedLater 5 = true ∧
    (dbEliminatedLater.pick_results.find? fun r => r.pick_id == 2) = none ∧
    ((update_pick_results 2025 50000 dbEliminatedLater 2).pick_results.find?
        fun r => r.pick_id == 2) =
      some { pick_id := 2, game_id := some "g2", is_valid := true, is_locked := true, survived := some true } := by
  refine ⟨by decide, rfl, rfl⟩

/-! ## Auto-eliminator step lemmas -/

theorem contains_true_of_mem {l : List Nat} {a : Nat} (h : a ∈ l) : l.contains a = true :=
  List.elem_iff.mpr h

theorem contains_false_of_not_mem {l : List Nat} {a : Nat} (h : a ∉ l) :
    l.contains a = false := by
  rw [Bool.eq_false_iff]
  intro hc
  exact h (List.elem_iff.mp hc)

theorem elimPlayerStep_of_null {season w : Int} {st : ElimState} {pid : Nat}
    (h : hasNullPickFor season st.db pid w = true) :
    elimPlayerStep season w st pid = st := by
  unfold elimPlayerStep
  rw [if_pos h]

theorem elimPlayerStep_create {season w : Int} {st : ElimState} {pid : Nat}
    (h1 : hasNullPickFor season st.db pid w = false)
    (h2 : hasPriorPick season st.db pid w = true) :
    elimPlayerStep season w st pid =
      { db := { st.db with
          picks := st.db.picks ++ [syntheticPick st.db.next_pick_id pid season w]
          pick_results := st.db.pick_results ++ [syntheticResult st.db.next_pick_id]
          next_pick_id := st.db.next_pick_id + 1 },
        alive := st.alive.erase pid } := by
  unfold elimPlayerStep
  rw [if_neg (by simp [h1]), if_pos h2]

theorem elimPlayerStep_cases (season w : Int) (st : ElimState) (pid : Nat) :
    elimPlayerStep season w st pid = st ∨
    elimPlayerStep season w st pid =
      { db := { st.db with
          picks := st.db.picks ++ [syntheticPick st.db.next_pick_id pid season w]
          pick_results := st.db.pick_results ++ [syntheticResult st.db.next_pick_id]
          next_pick_id := st.db.next_pick_id + 1 },
        alive := st.alive.erase pid } := by
  unfold elimPlayerStep
  split_ifs
  · exact Or.inl rfl
  · exact Or.inr rfl
  · exact Or.inl rfl

theorem elimPlayerStep_games (season w : Int) (st : ElimState) (a : Nat) :
    (elimPlayerStep season w st a).db.games = st.db.games := by
  rcases elimPlayerStep_cases season w st a with h | h <;> rw [h]

theorem elimPlayerStep_pidPicks_of_ne {season w : Int} {st : ElimState} {a pid : Nat}
    (hne : a ≠ pid) :
    pidPicks (elimPlayerStep season w st a).db pid = pidPicks st.db pid := by
  rcases elimPlayerStep_cases season w st a with h | h
  · rw [h]
  · rw [h]
    unfold pidPicks
    rw [List.filter_append]
    have : (List.filter (fun p => p.player_id == pid)
        [syntheticPick st.db.next_pick_id a season w]) = [] := by
      simp [syntheticPick, hne]
    rw [this, List.append_nil]

theorem elimPlayerStep_results_mono {season w : Int} {st : ElimState} {a : Nat}
    {r : PickResult} (h : r ∈ st.db.pick_results) :
    r ∈ (elimPlayerStep season w st a).db.pick_results := by
  rcases elimPlayerStep_cases season w st a with hc | hc <;> rw [hc]
  · exact h
  · exact List.mem_append_left _ h

theorem elimPlayerStep_track1_of_ne {season w : Int} {db0 : DB} {st : ElimState}
    {a pid : Nat} (hne : a ≠ pid) (hT : ElimTrack1 db0 pid st) :
    ElimTrack1 db0 pid (elimPlayerStep season w st a) := by
  obtain ⟨hg, ha, hnd, hp⟩ := hT
  refine ⟨?_, ?_, ?_, (elimPlayerStep_pidPicks_of_ne hne).trans hp⟩
  · rw [elimPlayerStep_games]
    exact hg
  · rcases elimPlayerStep_cases season w st a with h | h <;> rw [h]
    · exact ha
    · exact (List.mem_erase_of_ne (fun hEq => hne hEq.symm)).mpr ha
  · rcases elimPlayerStep_cases season w st a with h | h <;> rw [h]
    · exact hnd
    · exact hnd.erase a

theorem elimPlayerStep_track2_of_ne {season w W : Int} {db0 : DB} {st : ElimState}
    {a pid n : Nat} (hne : a ≠ pid) (hT : ElimTrack2 season W db0 pid n st) :
    ElimTrack2 season W db0 pid n (elimPlayerStep season w st a) := by
  obtain ⟨hg, ha, hp, hr⟩ := hT
  refine ⟨?_, ?_, (elimPlayerStep_pidPicks_of_ne hne).trans hp,
    elimPlayerStep_results_mono hr⟩
  · rw [elimPlayerStep_games]
    exact hg
  · rcases elimPlayerStep_cases season w st a with h | h <;> rw [h]
    · exact ha
    · exact fun hmem => ha (List.mem_of_mem_erase hmem)

/-! ## Query congruence under a player's unchanged picks -/

theorem hasPickFor_split (season : Int) (db : DB) (pid : Nat) (w : Int) :
    hasPickFor season db pid w =
      (pidPicks db pid).any (fun p => p.season == season && p.week == w) := by
  unfold hasPickFor pidPicks
  rw [← any_and_filter]

theorem hasNullPickFor_split (season : Int) (db : DB) (pid : Nat) (w : Int) :
    hasNullPickFor season db pid w =
      (pidPicks db pid).any (fun p =>
        p.season == season && p.week == w && p.team_abbr == none) := by
  unfold hasNullPickFor pidPicks
  rw [← any_and_filter]
  refine any_congr fun p _ => ?_
  cases p.season == season <;> cases p.week == w <;> cases p.player_id == pid <;>
    cases p.team_abbr == none <;> rfl

theorem hasPriorPick_split (season : Int) (db : DB) (pid : Nat) (w : Int) :
    hasPriorPick season db pid w =
      (pidPicks db pid).any (fun p => p.season == season && decide (p.week < w)) := by
  unfold hasPriorPick pidPicks
  rw [← any_and_filter]
  refine any_congr fun p _ => ?_
  cases p.season == season <;> cases p.player_id == pid <;> cases decide (p.week < w) <;> rfl

theorem hasPickFor_congr {season : Int} {db1 db2 : DB} {pid : Nat} {w : Int}
    (h : pidPicks db1 pid = pidPicks db2 pid) :
    hasPickFor season db1 pid w = hasPickFor season db2 pid w := by
  rw [hasPickFor_split, hasPickFor_split, h]

theorem hasNullPickFor_congr {season : Int} {db1 db2 : DB} {pid : Nat} {w : Int}
    (h : pidPicks db1 pid = pidPicks db2 pid) :
    hasNullPickFor season db1 pid w = hasNullPickFor season db2 pid w := by
  rw [hasNullPickFor_split, hasNullPickFor_split, h]

theorem hasPriorPick_congr {season : Int} {db1 db2 : DB} {pid : Nat} {w : Int}
    (h : pidPicks db1 pid = pidPicks db2 pid) :
    hasPriorPick season db1 pid w = hasPriorPick season db2 pid w := by
  rw [hasPriorPick_split, hasPriorPick_split, h]

theorem hasPickFor_of_null {season : Int} {db : DB} {pid : Nat} {w : Int}
    (h : hasNullPickFor season db pid w = true) : hasPickFor season db pid w = true := by
  refine any_imp (fun p hp => ?_) h
  simp only [Bool.and_eq_true] at hp ⊢
  tauto

/-! ## Week-level lemmas for the auto-eliminator -/

theorem elimWeekStep_of_empty {season w : Int} {st : ElimState}
    (h : (st.db.games.filter fun g => g.season == season && g.week == w).isEmpty = true) :
    elimWeekStep season st w = st := by
  simp only [elimWeekStep]
  rw [if_pos h]

theorem elimWeekStep_of_not_final {season w : Int} {st : ElimState}
    (h : ((st.db.games.filter fun g => g.season == season && g.week == w).all
      fun g => decide (g.status = GStatus.final)) = false) :
    elimWeekStep season st w = st := by
  simp only [elimWeekStep]
  by_cases h1 : (st.db.games.filter fun g => g.season == season && g.week == w).isEmpty = true
  · rw [if_pos h1]
  · rw [if_neg h1, if_pos (by rw [h]; rfl)]

theorem elimWeekStep_fold {season w : Int} {st : ElimState}
    (h1 : (st.db.games.filter fun g => g.season == season && g.week == w).isEmpty = false)
    (h2 : ((st.db.games.filter fun g => g.season == season && g.week == w).all
      fun g => decide (g.status = GStatus.final)) = true) :
    elimWeekStep season st w =
      (st.alive.filter fun pid =>
          !((st.alive.filter fun pid' => hasPickFor season st.db pid' w).contains pid)).foldl
        (elimPlayerStep season w) st := by
  simp only [elimWeekStep]
  rw [if_neg (by simp [h1]), if_neg (by simp [h2])]

theorem elimWeekStep_track1 {season w : Int} {db0 : DB} {pid : Nat} {st : ElimState}
    (hT : ElimTrack1 db0 pid st)
    (hno : (db0.games.filter fun g => g.season == season && g.week == w).isEmpty = false →
      ((db0.games.filter fun g => g.season == season && g.week == w).all
        fun g => decide (g.status = GStatus.final)) = true →
      hasPickFor season db0 pid w = true) :
    ElimTrack1 db0 pid (elimWeekStep season st w) := by
  obtain ⟨hg, ha, hnd, hp⟩ := hT
  by_cases h1 : (st.db.games.filter fun g => g.season == season && g.week == w).isEmpty = true
  · rw [elimWeekStep_of_empty h1]
    exact ⟨hg, ha, hnd, hp⟩
  · have h1f : (st.db.games.filter
        fun g => g.season == season && g.week == w).isEmpty = false :=
      Bool.eq_false_iff.mpr h1
    by_cases h2 : ((st.db.games.filter fun g => g.season == season && g.week == w).all
        fun g => decide (g.status = GStatus.final)) = true
    · have hpk : hasPickFor season st.db pid w = true := by
        rw [hasPickFor_congr hp]
        exact hno (hg ▸ h1f) (hg ▸ h2)
      rw [elimWeekStep_fold h1f h2]
      have hwpmem : pid ∈ st.alive.filter fun pid' => hasPickFor season st.db pid' w :=
        List.mem_filter.mpr ⟨ha, hpk⟩
      refine foldl_induction ⟨hg, ha, hnd, hp⟩ (fun st' a hamem hT' => ?_)
      have hane : a ≠ pid := by
        intro hEq
        subst hEq
        have hfa := (List.mem_filter.mp hamem).2
        rw [contains_true_of_mem hwpmem] at hfa
        simp at hfa
      exact elimPlayerStep_track1_of_ne hane hT'
    · rw [elimWeekStep_of_not_final (Bool.eq_false_iff.mpr h2)]
      exact ⟨hg, ha, hnd, hp⟩

theorem elimWeekStep_track2 {season w W : Int} {db0 : DB} {pid n : Nat} {st : ElimState}
    (hT : ElimTrack2 season W db0 pid n st) :
    ElimTrack2 season W db0 pid n (elimWeekStep season st w) := by
  obtain ⟨hg, ha, hp, hr⟩ := hT
  by_cases h1 : (st.db.games.filter fun g => g.season == season && g.week == w).isEmpty = true
  · rw [elimWeekStep_of_empty h1]
    exact ⟨hg, ha, hp, hr⟩
  · by_cases h2 : ((st.db.games.filter fun g => g.season == season && g.week == w).all
        fun g => decide (g.status = GStatus.final)) = true
    · rw [elimWeekStep_fold (Bool.eq_false_iff.mpr h1) h2]
      refine foldl_induction ⟨hg, ha, hp, hr⟩ (fun st' a hamem hT' => ?_)
      have hane : a ≠ pid := by
        intro hEq
        subst hEq
        exact ha (List.mem_filter.mp hamem).1
      exact elimPlayerStep_track2_of_ne hane hT'
    · rw [elimWeekStep_of_not_final (Bool.eq_false_iff.mpr h2)]
      exact ⟨hg, ha, hp, hr⟩

theorem elim_missing_fold_creates {season W : Int} {db0 : DB} {pid : Nat}
    (hnull0 : hasNullPickFor season db0 pid W = false)
    (hprior0 : hasPriorPick season db0 pid W = true) :
    ∀ (lst : List Nat) (st : ElimState), lst.Nodup → pid ∈ lst → ElimTrack1 db0 pid st →
      ∃ n, ElimTrack2 season W db0 pid n (lst.foldl (elimPlayerStep season W) st) := by
  intro lst
  induction lst with
  | nil =>
    intro st _ hmem _
    exact absurd hmem (List.not_mem_nil pid)
  | cons x xs ih =>
    intro st hnd hmem hT
    rw [List.foldl_cons]
    rw [List.nodup_cons] at hnd
    obtain ⟨hg, ha, hand, hp⟩ := hT
    by_cases hx : x = pid
    · subst hx
      have hnull : hasNullPickFor season st.db x W = false := by
        rw [hasNullPickFor_congr hp]
        exact hnull0
      have hpri : hasPriorPick season st.db x W = true := by
        rw [hasPriorPick_congr hp]
        exact hprior0
      rw [elimPlayerStep_create hnull hpri]
      have hT2 : ElimTrack2 season W db0 x st.db.next_pick_id
          { db := { st.db with
              picks := st.db.picks ++ [syntheticPick st.db.next_pick_id x season W]
              pick_results := st.db.pick_results ++ [syntheticResult st.db.next_pick_id]
              next_pick_id := st.db.next_pick_id + 1 },
            alive := st.alive.erase x } := by
        refine ⟨hg, hand.not_mem_erase, ?_, ?_⟩
        · unfold pidPicks
          rw [List.filter_append]
          have hone : (List.filter (fun p => p.player_id == x)
              [syntheticPick st.db.next_pick_id x season W]) =
              [syntheticPick st.db.next_pick_id x season W] := by
            simp [syntheticPick]
          rw [hone]
          exact congrArg (· ++ [syntheticPick st.db.next_pick_id x season W]) hp
        · exact List.mem_append_right _ (List.mem_singleton.mpr rfl)
      refine ⟨st.db.next_pick_id,
        foldl_induction hT2 (fun st' a hamem hT' => ?_)⟩
      exact elimPlayerStep_track2_of_ne (fun hEq => hnd.1 (hEq ▸ hamem)) hT'
    · have hx' : x ≠ pid := hx
      have hmem' : pid ∈ xs := by
        rcases List.mem_cons.mp hmem with h | h
        · exact absurd h.symm hx'
        · exact h
      exact ih _ hnd.2 hmem' (elimPlayerStep_track1_of_ne hx' ⟨hg, ha, hand, hp⟩)

/-! ## The eliminator as a whole -/

theorem eliminate_eq_fold (season cw : Int) (db : DB) :
    eliminate_missing_picks season cw db =
      ((rangeInt 1 cw).foldl (elimWeekStep season)
        { db := db
          alive := ((db.picks.filter fun p => p.season == season).map
            (·.player_id)).dedup.filter fun pid => !(isEliminated season db pid) }).db := rfl

theorem elimWeekStep_creates {season W : Int} {db0 : DB} {pid : Nat} {st : ElimState}
    (hT : ElimTrack1 db0 pid st)
    (hne : (db0.games.filter fun g => g.season == season && g.week == W).isEmpty = false)
    (hfin : ((db0.games.filter fun g => g.season == season && g.week == W).all
      fun g => decide (g.status = GStatus.final)) = true)
    (hnopick : hasPickFor season db0 pid W = false)
    (hprior0 : hasPriorPick season db0 pid W = true) :
    ∃ n, ElimTrack2 season W db0 pid n (elimWeekStep season st W) := by
  obtain ⟨hg, ha, hand, hp⟩ := hT
  have hnull0 : hasNullPickFor season db0 pid W = false := by
    rw [Bool.eq_false_iff]
    intro hcon
    rw [hasPickFor_of_null hcon] at hnopick
    simp at hnopick
  rw [elimWeekStep_fold (by rw [hg]; exact hne) (by rw [hg]; exact hfin)]
  have hpk : hasPickFor season st.db pid W = false := by
    rw [hasPickFor_congr hp]
    exact hnopick
  have hnwp : pid ∉ st.alive.filter fun pid' => hasPickFor season st.db pid' W := by
    intro hmem
    rw [(List.mem_filter.mp hmem).2] at hpk
    simp at hpk
  have hmiss : pid ∈ st.alive.filter fun pid' =>
      !((st.alive.filter fun pid'' => hasPickFor season st.db pid'' W).contains pid') := by
    refine List.mem_filter.mpr ⟨ha, ?_⟩
    rw [contains_false_of_not_mem hnwp]
    rfl
  exact elim_missing_fold_creates hnull0 hprior0 _ st (hand.filter _) hmiss ⟨hg, ha, hand, hp⟩

theorem elimPlayerStep_frame_of_ne {season w : Int} {db0 : DB} {st : ElimState}
    {a pid : Nat} (hne : a ≠ pid) (hF : ElimFrame db0 pid st) :
    ElimFrame db0 pid (elimPlayerStep season w st a) := by
  refine ⟨?_, (elimPlayerStep_pidPicks_of_ne hne).trans hF.2⟩
  rcases elimPlayerStep_cases season w st a with h | h <;> rw [h]
  · exact hF.1
  · exact fun hmem => hF.1 (List.mem_of_mem_erase hmem)

theorem elimWeekStep_frame {season w : Int} {db0 : DB} {pid : Nat} {st : ElimState}
    (hF : ElimFrame db0 pid st) : ElimFrame db0 pid (elimWeekStep season st w) := by
  by_cases h1 : (st.db.games.filter fun g => g.season == season && g.week == w).isEmpty = true
  · rw [elimWeekStep_of_empty h1]
    exact hF
  · by_cases h2 : ((st.db.games.filter fun g => g.season == season && g.week == w).all
        fun g => decide (g.status = GStatus.final)) = true
    · rw [elimWeekStep_fold (Bool.eq_false_iff.mpr h1) h2]
      refine foldl_induction hF (fun st' a hamem hF' => ?_)
      have hane : a ≠ pid := by
        intro hEq
        subst hEq
        exact hF.1 (List.mem_filter.mp hamem).1
      exact elimPlayerStep_frame_of_ne hane hF'
    · rw [elimWeekStep_of_not_final (Bool.eq_false_iff.mpr h2)]
      exact hF

theorem eliminate_frame_of_eliminated {season cw : Int} {db : DB} {pid : Nat}
    (h : isEliminated season db pid = true) :
    pidPicks (eliminate_missing_picks season cw db) pid = pidPicks db pid := by
  rw [eliminate_eq_fold]
  have h0 : ElimFrame db pid
      { db := db
        alive := ((db.picks.filter fun p => p.season == season).map
          (·.player_id)).dedup.filter fun pid => !(isEliminated season db pid) } := by
    refine ⟨?_, rfl⟩
    intro hmem
    have := (List.mem_filter.mp hmem).2
    rw [h] at this
    simp at this
  exact (foldl_induction h0 (fun st' a _ hF' => elimWeekStep_frame hF')).2

/-- **C4**: a player with no eliminating result, alive through every earlier
completed week (a pick for each one), with pick history before week `W` but
no pick for week `W`, where `1 ≤ W <` the current week, week `W` has at
least one game and all its games are final: one run of
`eliminate_missing_picks` appends exactly one synthetic null-team pick for
`(pid, season, W)` together with its invalid/locked/`survived=false`
result, ends with the player out of the alive set, and a second run
changes nothing for that player (no duplicate synthetic elimination). -/
theorem c4_missing_pick_auto_elimination
    (season cw W : Int) (db : DB) (pid : Nat)
    (halive : isEliminated season db pid = false)
    (hprior : hasPriorPick season db pid W = true)
    (hnopick : hasPickFor season db pid W = false)
    (hW1 : 1 ≤ W) (hWcw : W < cw)
    (hne : (db.games.filter fun g => g.season == season && g.week == W).isEmpty = false)
    (hfin : ((db.games.filter fun g => g.season == season && g.week == W).all
      fun g => decide (g.status = GStatus.final)) = true)
    (hearlier : ∀ w : Int, 1 ≤ w → w < W →
      (db.games.filter fun g => g.season == season && g.week == w).isEmpty = false →
      ((db.games.filter fun g => g.season == season && g.week == w).all
        fun g => decide (g.status = GStatus.final)) = true →
      hasPickFor season db pid w = true) :
    ∃ n,
      pidPicks (eliminate_missing_picks season cw db) pid =
        pidPicks db pid ++ [syntheticPick n pid season W] ∧
      syntheticResult n ∈ (eliminate_missing_picks season cw db).pick_results ∧
      pid ∉ ((rangeInt 1 cw).foldl (elimWeekStep season)
        { db := db
          alive := ((db.picks.filter fun p => p.season == season).map
            (·.player_id)).dedup.filter fun q => !(isEliminated season db q) }).alive ∧
      pidPicks (eliminate_missing_picks season cw (eliminate_missing_picks season cw db)) pid =
        pidPicks (eliminate_missing_picks season cw db) pid := by
  have hsplit : rangeInt 1 cw = rangeInt 1 W ++ W :: rangeInt (W + 1) cw := by
    rw [← rangeInt_cons hWcw, rangeInt_append hW1 (le_of_lt hWcw)]
  obtain ⟨p0, hp0mem, hp0pred⟩ := List.any_eq_true.mp hprior
  simp only [Bool.and_eq_true] at hp0pred
  have hT0 : ElimTrack1 db pid
      { db := db
        alive := ((db.picks.filter fun p => p.season == season).map
          (·.player_id)).dedup.filter fun q => !(isEliminated season db q) } := by
    refine ⟨rfl, ?_, (List.nodup_dedup _).filter _, rfl⟩
    refine List.mem_filter.mpr ⟨?_, by rw [halive]; rfl⟩
    refine List.mem_dedup.mpr ?_
    exact List.mem_map.mpr ⟨p0, List.mem_filter.mpr ⟨hp0mem, hp0pred.1.2⟩,
      eq_of_beq hp0pred.1.1⟩
  have hTA : ElimTrack1 db pid ((rangeInt 1 W).foldl (elimWeekStep season)
      { db := db
        alive := ((db.picks.filter fun p => p.season == season).map
          (·.player_id)).dedup.filter fun q => !(isEliminated season db q) }) :=
    foldl_induction hT0 (fun st' w hw hT' =>
      elimWeekStep_track1 hT' (fun a b =>
        hearlier w (mem_rangeInt.mp hw).1 (mem_rangeInt.mp hw).2 a b))
  obtain ⟨n, hT2⟩ := elimWeekStep_creates hTA hne hfin hnopick hprior
  have hTF : ElimTrack2 season W db pid n
      ((rangeInt (W + 1) cw).foldl (elimWeekStep season)
        (elimWeekStep season ((rangeInt 1 W).foldl (elimWeekStep season)
          { db := db
            alive := ((db.picks.filter fun p => p.season == season).map
              (·.player_id)).dedup.filter fun q => !(isEliminated season db q) }) W)) :=
    foldl_induction hT2 (fun st' w _ hT' => elimWeekStep_track2 hT')
  obtain ⟨hgF, haF, hpF, hrF⟩ := hTF
  have hfold : eliminate_missing_picks season cw db =
      ((rangeInt (W + 1) cw).foldl (elimWeekStep season)
        (elimWeekStep season ((rangeInt 1 W).foldl (elimWeekStep season)
          { db := db
            alive := ((db.picks.filter fun p => p.season == season).map
              (·.player_id)).dedup.filter fun q => !(isEliminated season db q) }) W)).db := by
    rw [eliminate_eq_fold, hsplit, List.foldl_append, List.foldl_cons]
  refine ⟨n, ?_, ?_, ?_, ?_⟩
  · rw [hfold]
    exact hpF
  · rw [hfold]
    exact hrF
  · rw [hsplit, List.foldl_append, List.foldl_cons]
    exact haF
  · have hsmem : syntheticPick n pid season W ∈ (eliminate_missing_picks season cw db).picks := by
      have hmem : syntheticPick n pid season W ∈
          pidPicks (eliminate_missing_picks season cw db) pid := by
        rw [hfold, hpF]
        exact List.mem_append_right _ (List.mem_singleton.mpr rfl)
      exact (List.mem_filter.mp hmem).1
    have hrmem : syntheticResult n ∈ (eliminate_missing_picks season cw db).pick_results := by
      rw [hfold]
      exact hrF
    have helim : isEliminated season (eliminate_missing_picks season cw db) pid = true := by
      refine List.any_eq_true.mpr ⟨syntheticPick n pid season W, hsmem, ?_⟩
      simp only [Bool.and_eq_true]
      refine ⟨⟨?_, ?_⟩, ?_⟩
      · simp [syntheticPick]
      · simp [syntheticPick]
      · refine List.any_eq_true.mpr ⟨syntheticResult n, hrmem, ?_⟩
        simp [syntheticPick, syntheticResult]
    exact eliminate_frame_of_eliminated helim

/-- Witness for C4: in `dbMissedWk2`, player 7 picked in week 1, missed
completed week 2, and the eliminator synthesizes their elimination. -/
theorem c4_witness :
    (isEliminated 2025 dbMissedWk2 7 = false ∧
      hasPriorPick 2025 dbMissedWk2 7 2 = true ∧
      hasPickFor 2025 dbMissedWk2 7 2 = false) ∧
    (∃ n,
      pidPicks (eliminate_missing_picks 2025 3 dbMissedWk2) 7 =
        pidPicks dbMissedWk2 7 ++ [syntheticPick n 7 2025 2] ∧
      syntheticResult n ∈ (eliminate_missing_picks 2025 3 dbMissedWk2).pick_results ∧
      7 ∉ ((rangeInt 1 3).foldl (elimWeekStep 2025)
        { db := dbMissedWk2
          alive := ((dbMissedWk2.picks.filter fun p => p.season == 2025).map
            (·.player_id)).dedup.filter fun q => !(isEliminated 2025 dbMissedWk2 q) }).alive ∧
      pidPicks (eliminate_missing_picks 2025 3 (eliminate_missing_picks 2025 3 dbMissedWk2)) 7 =
        pidPicks (eliminate_missing_picks 2025 3 dbMissedWk2) 7) :=
  ⟨⟨by decide, by decide, by decide⟩,
    c4_missing_pick_auto_elimination 2025 3 2 dbMissedWk2 7 (by decide) (by decide)
      (by decide) (by decide) (by decide) (by decide) (by decide)
      (by
        intro w h1 h2 _ _
        have hw : w = 1 := by omega
        subst hw
        decide)⟩

/-- **C8 (amended)**: elimination is terminal for the auto-eliminator: a
player owning any `survived=false` result is excluded from the alive set,
so `eliminate_missing_picks` never touches or adds to that player's picks.
(The per-week survival pass `update_pick_results` does not exclude
eliminated players — see the counterexample.) -/
theorem c8_amended_eliminator_excludes_eliminated
    (season cw : Int) (db : DB) (pid : Nat)
    (h : isEliminated season db pid = true) :
    pidPicks (eliminate_missing_picks season cw db) pid = pidPicks db pid :=
  eliminate_frame_of_eliminated h

/-- Witness for C8 (amended): player 5, eliminated in week 1 of
`dbEliminatedLater`, is untouched by the auto-eliminator. -/
theorem c8_witness :
    isEliminated 2025 dbEliminatedLater 5 = true ∧
    pidPicks (eliminate_missing_picks 2025 4 dbEliminatedLater) 5 =
      pidPicks dbEliminatedLater 5 :=
  ⟨by decide, c8_amended_eliminator_excludes_eliminated 2025 4 dbEliminatedLater 5 (by decide)⟩

/-! ## Towards C1: the update fold settles every pick of the season -/

theorem mem_insertAsc {x a : Int} : ∀ {l : List Int}, a ∈ insertAsc x l ↔ a = x ∨ a ∈ l := by
  intro l
  induction l with
  | nil => simp [insertAsc]
  | cons y ys ih =>
    unfold insertAsc
    by_cases h : x ≤ y
    · rw [if_pos h]
      simp [List.mem_cons]
    · rw [if_neg h]
      simp only [List.mem_cons, ih]
      tauto

theorem mem_sortAsc {l : List Int} {a : Int} : a ∈ sortAsc l ↔ a ∈ l := by
  induction l with
  | nil => exact Iff.rfl
  | cons x xs ih =>
    show a ∈ insertAsc x (sortAsc xs) ↔ _
    rw [mem_insertAsc, ih, List.mem_cons]

theorem mem_allWeeks {season : Int} {db : DB} {p : Pick} (hp : p ∈ db.picks)
    (hs : p.season = season) : p.week ∈ allWeeks season db := by
  unfold allWeeks
  rw [mem_sortAsc, List.mem_dedup]
  exact List.mem_map.mpr ⟨p, List.mem_filter.mpr ⟨hp, by simp [hs]⟩, rfl⟩

theorem isEmpty_false_of_mem {l : List α} {a : α} (h : a ∈ l) : l.isEmpty = false := by
  cases l with
  | nil => exact absurd h (List.not_mem_nil a)
  | cons x xs => rfl

theorem settled_of_team_none {now : Int} {db : DB} {p : Pick} (h : p.team_abbr = none) :
    PickSettled now db p := by
  intro g hg hm
  unfold gameMatchesPick at hm
  simp only [Bool.and_eq_true] at hm
  have h2 := hm.2
  rw [h] at h2
  simp only [Bool.or_eq_true] at h2
  rcases h2 with h3 | h3 <;> exact absurd (eq_of_beq h3) (by simp)

theorem update_week_inv (season now w : Int) (d : DB) (hWF : WF d) (htu : TeamUnique d) :
    WF (update_pick_results season now d w) ∧ TeamUnique (update_pick_results season now d w) ∧
    (update_pick_results season now d w).picks = d.picks ∧
    (update_pick_results season now d w).next_pick_id = d.next_pick_id ∧
    (update_pick_results season now d w).games.map matchKey = d.games.map matchKey ∧
    (update_pick_results season now d w).games.map (·.game_id) = d.games.map (·.game_id) := by
  simp only [update_pick_results]
  exact fold_inv now _ d hWF htu (fun x hx => (List.mem_filter.mp hx).1)

theorem week_fold_inv (season now : Int) : ∀ (ws : List Int) (d : DB), WF d → TeamUnique d →
    WF (ws.foldl (update_pick_results season now) d) ∧
    TeamUnique (ws.foldl (update_pick_results season now) d) ∧
    (ws.foldl (update_pick_results season now) d).picks = d.picks ∧
    (ws.foldl (update_pick_results season now) d).next_pick_id = d.next_pick_id ∧
    (ws.foldl (update_pick_results season now) d).games.map matchKey = d.games.map matchKey ∧
    (ws.foldl (update_pick_results season now) d).games.map (·.game_id) =
      d.games.map (·.game_id) := by
  intro ws
  induction ws with
  | nil =>
    intro d hWF htu
    exact ⟨hWF, htu, rfl, rfl, rfl, rfl⟩
  | cons w ws ih =>
    intro d hWF htu
    obtain ⟨hWF1, htu1, hp1, hn1, hk1, hi1⟩ := update_week_inv season now w d hWF htu
    obtain ⟨hWF2, htu2, hp2, hn2, hk2, hi2⟩ :=
      ih (update_pick_results season now d w) hWF1 htu1
    exact ⟨hWF2, htu2, hp2.trans hp1, hn2.trans hn1, hk2.trans hk1, hi2.trans hi1⟩

theorem week_fold_settles (season now : Int) : ∀ (ws : List Int) (d : DB),
    WF d → TeamUnique d → ∀ p ∈ d.picks, p.season = season →
    (p.week ∈ ws ∨ PickSettled now d p) →
    PickSettled now (ws.foldl (update_pick_results season now) d) p := by
  intro ws
  induction ws with
  | nil =>
    intro d _ _ p _ _ hcase
    rcases hcase with h | h
    · exact absurd h (List.not_mem_nil _)
    · exact h
  | cons w ws ih =>
    intro d hWF htu p hp hs hcase
    rw [List.foldl_cons]
    obtain ⟨hWF1, htu1, hp1, _, _, _⟩ := update_week_inv season now w d hWF htu
    have hp' : p ∈ (update_pick_results season now d w).picks := hp1 ▸ hp
    have hnod : ((d.picks.filter fun q =>
        q.season == season && q.week == w && q.team_abbr.isSome).map (·.pick_id)).Nodup :=
      List.Nodup.sublist (List.Sublist.map _ (List.filter_sublist _)) hWF.1
    by_cases hmem : p ∈ d.picks.filter fun q =>
        q.season == season && q.week == w && q.team_abbr.isSome
    · have hset1 := (fold_settles now _ d hWF htu
        (fun x hx => (List.mem_filter.mp hx).1) hnod).1 p hmem
      exact ih _ hWF1 htu1 p hp' hs (Or.inr hset1)
    · have hpres : PickSettled now d p →
          PickSettled now (update_pick_results season now d w) p := by
        intro hsd
        have hdis : ∀ x ∈ d.picks.filter (fun q =>
            q.season == season && q.week == w && q.team_abbr.isSome),
            p.pick_id ≠ x.pick_id := by
          intro x hx hEq
          have hxp : x = p :=
            eq_of_mem_of_key_eq (List.mem_filter.mp hx).1 hp hEq.symm hWF.1
          exact hmem (hxp ▸ hx)
        exact (fold_settles now _ d hWF htu
          (fun x hx => (List.mem_filter.mp hx).1) hnod).2 p hdis hsd
      rcases hcase with hwk | hsd
      · rcases List.mem_cons.mp hwk with hww | hws
        · cases hteam : p.team_abbr with
          | none => exact ih _ hWF1 htu1 p hp' hs (Or.inr (settled_of_team_none hteam))
          | some t =>
            exfalso
            refine hmem (List.mem_filter.mpr ⟨hp, ?_⟩)
            simp [hs, hww, hteam]
        · exact ih _ hWF1 htu1 p hp' hs (Or.inl hws)
      · exact ih _ hWF1 htu1 p hp' hs (Or.inr (hpres hsd))

/-! ## Towards C1: the stuck-game finalizer on a settled state -/

theorem filter_eq_nil_of_forall {p : α → Bool} {l : List α}
    (h : ∀ a ∈ l, p a = false) : l.filter p = [] := by
  induction l with
  | nil => rfl
  | cons x xs ih =>
    rw [List.filter_cons_of_neg (by simp [h x (List.mem_cons_self x xs)])]
    exact ih fun a ha => h a (List.mem_cons_of_mem x ha)

theorem finalizeStuckGame_picks (now : Int) (db : DB) (g : Game) :
    (finalizeStuckGame now db g).picks = db.picks := by
  unfold finalizeStuckGame
  by_cases h4 : decide (now - g.kickoff > 14400) = true
  · rw [if_pos h4]
    refine (foldl_pres (fun d : DB => d.picks) (fun d p _ => ?_) _).trans rfl
    cases hf : d.pick_results.find? (fun r => r.pick_id == p.pick_id) with
    | none => simp [hf]
    | some pr => simp only [hf]
  · rw [if_neg h4]

theorem finalizeStuckGame_next (now : Int) (db : DB) (g : Game) :
    (finalizeStuckGame now db g).next_pick_id = db.next_pick_id := by
  unfold finalizeStuckGame
  by_cases h4 : decide (now - g.kickoff > 14400) = true
  · rw [if_pos h4]
    refine (foldl_pres (fun d : DB => d.next_pick_id) (fun d p _ => ?_) _).trans rfl
    cases hf : d.pick_results.find? (fun r => r.pick_id == p.pick_id) with
    | none => simp [hf]
    | some pr => simp only [hf]
  · rw [if_neg h4]

theorem finalize_picks (season now : Int) (db : DB) :
    (finalize_stuck_games season now db).picks = db.picks := by
  unfold finalize_stuck_games
  exact foldl_pres (fun d : DB => d.picks) (fun d g _ => finalizeStuckGame_picks now d g) db

theorem finalize_next (season now : Int) (db : DB) :
    (finalize_stuck_games season now db).next_pick_id = db.next_pick_id := by
  unfold finalize_stuck_games
  exact foldl_pres (fun d : DB => d.next_pick_id)
    (fun d g _ => finalizeStuckGame_next now d g) db

theorem finalizeStuckGame_games_id (now : Int) (db : DB) (g : Game) :
    (finalizeStuckGame now db g).games.map (·.game_id) = db.games.map (·.game_id) := by
  rw [finalizeStuckGame_games]
  by_cases h4 : now - g.kickoff > 14400
  · rw [if_pos h4]
    refine updateFirst_map (fun a ha => ?_)
    rw [deriveWinnerStuck_game_id]
    exact (eq_of_beq ha).symm
  · rw [if_neg h4]

theorem finalize_games_id (season now : Int) (db : DB) :
    (finalize_stuck_games season now db).games.map (·.game_id) = db.games.map (·.game_id) := by
  unfold finalize_stuck_games
  exact foldl_pres (fun d : DB => d.games.map (·.game_id))
    (fun d g _ => finalizeStuckGame_games_id now d g) db

theorem stuck_complete {now : Int} {g : Game} (hnotfinal : g.status ≠ GStatus.final)
    (hh : g.home_score.isSome = true) (ha : g.away_score.isSome = true)
    (h4 : now - g.kickoff > 14400) : is_game_complete now g = true := by
  unfold is_game_complete
  rw [if_neg (by simp [hnotfinal]), if_pos (by rw [hh, ha]; rfl)]
  exact decide_eq_true h4

theorem stuckFilter_parts {season : Int} {g : Game} (hstuck : stuckFilter season g = true) :
    g.season = season ∧ g.status ≠ GStatus.final ∧
      g.home_score.isSome = true ∧ g.away_score.isSome = true := by
  unfold stuckFilter at hstuck
  simp only [Bool.and_eq_true] at hstuck
  refine ⟨eq_of_beq hstuck.1.1.1, ?_, hstuck.1.2, hstuck.2⟩
  intro hcon
  have := hstuck.1.1.2
  simp [hcon] at this

theorem stuck_no_settled_match {season now : Int} {db : DB} {g : Game}
    (hg : g ∈ db.games) (hstuck : stuckFilter season g = true)
    (h4 : now - g.kickoff > 14400)
    (hset : ∀ p ∈ db.picks, p.season = season → PickSettled now db p) :
    ∀ p ∈ db.picks, (p.season == g.season && p.week == g.week &&
      (p.team_abbr == some g.home_team || p.team_abbr == some g.away_team)) = false := by
  intro p hp
  rw [Bool.eq_false_iff]
  intro hpred
  simp only [Bool.and_eq_true, Bool.or_eq_true] at hpred
  obtain ⟨hgseason, hnotfinal, hh, ha⟩ := stuckFilter_parts hstuck
  have hps : p.season = season := (eq_of_beq hpred.1.1).trans hgseason
  have hm : gameMatchesPick p g = true := by
    unfold gameMatchesPick
    simp only [Bool.and_eq_true, Bool.or_eq_true]
    refine ⟨⟨?_, ?_⟩, ?_⟩
    · rw [eq_of_beq hpred.1.1]
      simp
    · rw [eq_of_beq hpred.1.2]
      simp
    · rcases hpred.2 with h3 | h3
      · rw [eq_of_beq h3]
        simp
      · rw [eq_of_beq h3]
        simp
  obtain ⟨pr, _, _, _, hcompl⟩ := hset p hp hps g hg hm
  exact hnotfinal (hcompl (stuck_complete hnotfinal hh ha h4)).1

theorem finalizeStuckGame_results_of_no_picks (now : Int) (d : DB) (g : Game)
    (hpcs : (d.picks.filter fun p =>
        p.season == g.season && p.week == g.week &&
          (p.team_abbr == some g.home_team || p.team_abbr == some g.away_team)) = []) :
    (finalizeStuckGame now d g).pick_results = d.pick_results := by
  simp only [finalizeStuckGame]
  by_cases h4 : decide (now - g.kickoff > 14400) = true
  · rw [if_pos h4, hpcs]
    rfl
  · rw [if_neg h4]

theorem finalize_results_of_settled (season now : Int) (db : DB)
    (hset : ∀ p ∈ db.picks, p.season = season → PickSettled now db p) :
    (finalize_stuck_games season now db).pick_results = db.pick_results := by
  unfold finalize_stuck_games
  suffices h : ∀ (sl : List Game) (d : DB),
      (∀ g ∈ sl, g ∈ db.games ∧ stuckFilter season g = true) →
      d.picks = db.picks → d.pick_results = db.pick_results →
      (sl.foldl (finalizeStuckGame now) d).pick_results = db.pick_results by
    exact h _ db
      (fun g hg => ⟨(List.mem_filter.mp hg).1, (List.mem_filter.mp hg).2⟩) rfl rfl
  intro sl
  induction sl with
  | nil =>
    intro d _ _ hdr
    exact hdr
  | cons g sl ih =>
    intro d hmem hdp hdr
    rw [List.foldl_cons]
    have hg := hmem g (List.mem_cons_self g sl)
    by_cases h4 : decide (now - g.kickoff > 14400) = true
    · have hpcs : (d.picks.filter fun p =>
          p.season == g.season && p.week == g.week &&
            (p.team_abbr == some g.home_team || p.team_abbr == some g.away_team)) = [] := by
        rw [hdp]
        exact filter_eq_nil_of_forall
          (stuck_no_settled_match hg.1 hg.2 (of_decide_eq_true h4) hset)
      exact ih _ (fun g' hg' => hmem g' (List.mem_cons_of_mem g hg'))
        ((finalizeStuckGame_picks now d g).trans hdp)
        ((finalizeStuckGame_results_of_no_picks now d g hpcs).trans hdr)
    · have hid : finalizeStuckGame now d g = d := by
        simp only [finalizeStuckGame]
        rw [if_neg h4]
      rw [hid]
      exact ih _ (fun g' hg' => hmem g' (List.mem_cons_of_mem g hg')) hdp hdr

theorem finalize_games_mem (season now : Int) (db : DB) :
    ∀ b ∈ (finalize_stuck_games season now db).games,
      b ∈ db.games ∨ ∃ g, g ∈ db.games ∧ stuckFilter season g = true ∧
        now - g.kickoff > 14400 ∧ b = deriveWinnerStuck { g with status := GStatus.final } := by
  unfold finalize_stuck_games
  suffices h : ∀ (sl : List Game) (d : DB),
      (∀ g ∈ sl, g ∈ db.games ∧ stuckFilter season g = true) →
      (∀ b ∈ d.games, b ∈ db.games ∨ ∃ g, g ∈ db.games ∧ stuckFilter season g = true ∧
        now - g.kickoff > 14400 ∧ b = deriveWinnerStuck { g with status := GStatus.final }) →
      ∀ b ∈ (sl.foldl (finalizeStuckGame now) d).games,
        b ∈ db.games ∨ ∃ g, g ∈ db.games ∧ stuckFilter season g = true ∧
          now - g.kickoff > 14400 ∧ b = deriveWinnerStuck { g with status := GStatus.final } by
    exact h _ db
      (fun g hg => ⟨(List.mem_filter.mp hg).1, (List.mem_filter.mp hg).2⟩)
      (fun b hb => Or.inl hb)
  intro sl
  induction sl with
  | nil =>
    intro d _ hd
    exact hd
  | cons g sl ih =>
    intro d hmem hd
    rw [List.foldl_cons]
    refine ih _ (fun g' hg' => hmem g' (List.mem_cons_of_mem g hg')) ?_
    intro b hb
    rw [finalizeStuckGame_games] at hb
    by_cases h4 : now - g.kickoff > 14400
    · rw [if_pos h4] at hb
      rcases mem_updateFirst hb with hb' | ⟨a, _, _, hba⟩
      · exact hd b hb'
      · exact Or.inr ⟨g, (hmem g (List.mem_cons_self g sl)).1,
          (hmem g (List.mem_cons_self g sl)).2, h4, hba⟩
    · rw [if_neg h4] at hb
      exact hd b hb

theorem finalize_preserves_settled (season now : Int) (db : DB)
    (hset : ∀ p ∈ db.picks, p.season = season → PickSettled now db p) :
    ∀ p ∈ db.picks, p.season = season →
      PickSettled now (finalize_stuck_games season now db) p := by
  intro p hp hs g' hg' hm'
  rcases finalize_games_mem season now db g' hg' with hmem | ⟨g, hg, hstuck, h4, rfl⟩
  · obtain ⟨pr, hfind, hrest⟩ := hset p hp hs g' hmem hm'
    refine ⟨pr, ?_, hrest⟩
    rw [finalize_results_of_settled season now db hset]
    exact hfind
  · exfalso
    have hkey : matchKey (deriveWinnerStuck { g with status := GStatus.final }) =
        matchKey g := by
      rw [deriveWinnerStuck_matchKey]
      rfl
    rw [gameMatchesPick_congr p hkey] at hm'
    obtain ⟨hgs, hnf, hh, ha⟩ := stuckFilter_parts hstuck
    obtain ⟨pr, _, _, _, hcompl⟩ := hset p hp hs g hg hm'
    exact hnf (hcompl (stuck_complete hnf hh ha h4)).1

theorem finalize_game_done (season now : Int) (db : DB)
    (hnd : (db.games.map (·.game_id)).Nodup) :
    GameDone season now (finalize_stuck_games season now db) := by
  intro g' hg' hseason hh ha h4
  by_contra hnf
  have hndid : ((finalize_stuck_games season now db).games.map (·.game_id)).Nodup := by
    rw [finalize_games_id]
    exact hnd
  have hfind2 : (finalize_stuck_games season now db).games.find?
      (fun x => x.game_id == g'.game_id) = some g' := find?_beq_key_of_mem hg' hndid
  obtain ⟨g0, hg0, hid⟩ : ∃ g0, g0 ∈ db.games ∧ g0.game_id = g'.game_id := by
    have hmemid : g'.game_id ∈ (finalize_stuck_games season now db).games.map (·.game_id) :=
      List.mem_map_of_mem _ hg'
    rw [finalize_games_id] at hmemid
    obtain ⟨g0, hg0, hg0id⟩ := List.mem_map.mp hmemid
    exact ⟨g0, hg0, hg0id⟩
  by_cases hstuck : stuckFilter season g0 = true
  · have hfound := (finalize_stuck_games_find season now db hnd).1 g0 hg0 hstuck
    rw [hid, hfind2] at hfound
    injection hfound with hEq
    by_cases h40 : now - g0.kickoff > 14400
    · rw [if_pos h40] at hEq
      apply hnf
      rw [hEq, deriveWinnerStuck_status]
    · rw [if_neg h40] at hEq
      rw [hEq] at h4
      exact h40 h4
  · have hfound := (finalize_stuck_games_find season now db hnd).2 g0 hg0
      (Bool.eq_false_iff.mpr hstuck)
    rw [hid, hfind2] at hfound
    injection hfound with hEq
    apply hstuck
    rw [← hEq]
    unfold stuckFilter
    simp [hseason, hnf, hh, ha]

theorem finalize_id_of_done {season now : Int} {d : DB} (hdone : GameDone season now d) :
    finalize_stuck_games season now d = d := by
  unfold finalize_stuck_games
  refine foldl_fixed (fun g hg => ?_)
  have hmem := (List.mem_filter.mp hg).1
  obtain ⟨hgs, hnf, hh, ha⟩ := stuckFilter_parts (List.mem_filter.mp hg).2
  have h4 : ¬(now - g.kickoff > 14400) := fun h4 => hnf (hdone g hmem hgs hh ha h4)
  simp only [finalizeStuckGame]
  rw [if_neg (by simp [h4])]

/-! ## Towards C1: the auto-eliminator's shape and idempotence -/

theorem elimWeekStep_games (season : Int) (st : ElimState) (w : Int) :
    (elimWeekStep season st w).db.games = st.db.games := by
  by_cases h1 : (st.db.games.filter fun g => g.season == season && g.week == w).isEmpty = true
  · rw [elimWeekStep_of_empty h1]
  · by_cases h2 : ((st.db.games.filter fun g => g.season == season && g.week == w).all
        fun g => decide (g.status = GStatus.final)) = true
    · rw [elimWeekStep_fold (Bool.eq_false_iff.mpr h1) h2]
      exact foldl_pres (fun s : ElimState => s.db.games)
        (fun s a _ => elimPlayerStep_games season w s a) st
    · rw [elimWeekStep_of_not_final (Bool.eq_false_iff.mpr h2)]

theorem eliminate_games (season cw : Int) (X : DB) :
    (eliminate_missing_picks season cw X).games = X.games := by
  rw [eliminate_eq_fold]
  exact foldl_pres (fun s : ElimState => s.db.games)
    (fun s w _ => elimWeekStep_games season s w) _

theorem elimPlayerStep_shape {season w : Int} {X : DB} {st : ElimState} (a : Nat)
    (h : ElimShape X st) : ElimShape X (elimPlayerStep season w st a) := by
  rcases elimPlayerStep_cases season w st a with hc | hc <;> rw [hc]
  · exact h
  · obtain ⟨⟨t, ht⟩, hchar, hmono⟩ := h
    refine ⟨⟨t ++ [syntheticResult st.db.next_pick_id], ?_⟩, ?_, ?_⟩
    · show st.db.pick_results ++ [syntheticResult st.db.next_pick_id] =
        X.pick_results ++ (t ++ [syntheticResult st.db.next_pick_id])
      rw [ht, List.append_assoc]
    · intro p hp
      rcases List.mem_append.mp hp with hp' | hp'
      · rcases hchar p hp' with h' | ⟨hn, hr⟩
        · exact Or.inl h'
        · exact Or.inr ⟨hn, List.mem_append_left _ hr⟩
      · rcases List.mem_singleton.mp hp' with rfl
        exact Or.inr ⟨rfl, List.mem_append_right _ (List.mem_singleton.mpr rfl)⟩
    · intro p hp
      exact List.mem_append_left _ (hmono p hp)

theorem elimWeekStep_shape {season w : Int} {X : DB} {st : ElimState}
    (h : ElimShape X st) : ElimShape X (elimWeekStep season st w) := by
  by_cases h1 : (st.db.games.filter fun g => g.season == season && g.week == w).isEmpty = true
  · rw [elimWeekStep_of_empty h1]
    exact h
  · by_cases h2 : ((st.db.games.filter fun g => g.season == season && g.week == w).all
        fun g => decide (g.status = GStatus.final)) = true
    · rw [elimWeekStep_fold (Bool.eq_false_iff.mpr h1) h2]
      exact foldl_induction h (fun st' a _ h' => elimPlayerStep_shape a h')
    · rw [elimWeekStep_of_not_final (Bool.eq_false_iff.mpr h2)]
      exact h

theorem eliminate_shape (season cw : Int) (X : DB) :
    (∃ t, (eliminate_missing_picks season cw X).pick_results = X.pick_results ++ t) ∧
    (∀ p ∈ (eliminate_missing_picks season cw X).picks,
      p ∈ X.picks ∨ (p.team_abbr = none ∧
        syntheticResult p.pick_id ∈ (eliminate_missing_picks season cw X).pick_results)) ∧
    (∀ p ∈ X.picks, p ∈ (eliminate_missing_picks season cw X).picks) := by
  have h : ElimShape X ((rangeInt 1 cw).foldl (elimWeekStep season)
      { db := X
        alive := ((X.picks.filter fun p => p.season == season).map
          (·.player_id)).dedup.filter fun q => !(isEliminated season X q) }) :=
    foldl_induction ⟨⟨[], (List.append_nil _).symm⟩, fun p hp => Or.inl hp, fun p hp => hp⟩
      (fun st' w _ h' => elimWeekStep_shape h')
  rw [eliminate_eq_fold]
  exact h

theorem isEliminated_mono {season : Int} {X Y : DB} (hpk : ∀ p ∈ X.picks, p ∈ Y.picks)
    (hrs : ∀ r ∈ X.pick_results, r ∈ Y.pick_results) {a : Nat}
    (h : isEliminated season X a = true) : isEliminated season Y a = true := by
  obtain ⟨p, hp, hpred⟩ := List.any_eq_true.mp h
  refine List.any_eq_true.mpr ⟨p, hpk p hp, ?_⟩
  simp only [Bool.and_eq_true] at hpred ⊢
  obtain ⟨⟨h1, h2⟩, hinner⟩ := hpred
  refine ⟨⟨h1, h2⟩, ?_⟩
  obtain ⟨r, hr, hrp⟩ := List.any_eq_true.mp hinner
  exact List.any_eq_true.mpr ⟨r, hrs r hr, hrp⟩

theorem elimPlayerStep_of_no_prior {season w : Int} {st : ElimState} {pid : Nat}
    (h1 : hasNullPickFor season st.db pid w = false)
    (h2 : hasPriorPick season st.db pid w = false) :
    elimPlayerStep season w st pid = st := by
  unfold elimPlayerStep
  rw [if_neg (by simp [h1]), if_neg (by simp [h2])]

theorem weekComplete_iff {season w : Int} {gs : List Game} :
    weekComplete season w gs = true ↔
      ((gs.filter fun g => g.season == season && g.week == w).isEmpty = false ∧
        ((gs.filter fun g => g.season == season && g.week == w).all
          fun g => decide (g.status = GStatus.final)) = true) := by
  unfold weekComplete
  rw [Bool.and_eq_true, Bool.not_eq_true']

theorem track2_eliminated {season W : Int} {X : DB} {pid n : Nat} {st : ElimState}
    (hT : ElimTrack2 season W X pid n st) :
    isEliminated season st.db pid = true := by
  obtain ⟨_, _, hp, hr⟩ := hT
  have hsmem : syntheticPick n pid season W ∈ st.db.picks := by
    have hmem : syntheticPick n pid season W ∈ pidPicks st.db pid := by
      rw [hp]
      exact List.mem_append_right _ (List.mem_singleton.mpr rfl)
    exact (List.mem_filter.mp hmem).1
  refine List.any_eq_true.mpr ⟨syntheticPick n pid season W, hsmem, ?_⟩
  simp only [Bool.and_eq_true]
  refine ⟨⟨by simp [syntheticPick], by simp [syntheticPick]⟩, ?_⟩
  refine List.any_eq_true.mpr ⟨syntheticResult n, hr, ?_⟩
  simp [syntheticPick, syntheticResult]

theorem elimWeekStep_dicho {season w : Int} {X : DB} {pid : Nat} {st : ElimState}
    (hT : ElimTrack1 X pid st) :
    (ElimTrack1 X pid (elimWeekStep season st w) ∧
      (weekComplete season w X.games = true →
        hasPickFor season X pid w = true ∨ hasNullPickFor season X pid w = true ∨
        hasPriorPick season X pid w = false)) ∨
    ∃ n, ElimTrack2 season w X pid n (elimWeekStep season st w) := by
  obtain ⟨hg, ha, hnd, hp⟩ := hT
  by_cases h1 : (st.db.games.filter fun g => g.season == season && g.week == w).isEmpty = true
  · rw [elimWeekStep_of_empty h1]
    refine Or.inl ⟨⟨hg, ha, hnd, hp⟩, fun hwc => ?_⟩
    exfalso
    have hne := (weekComplete_iff.mp hwc).1
    rw [← hg, h1] at hne
    simp at hne
  · by_cases h2 : ((st.db.games.filter fun g => g.season == season && g.week == w).all
        fun g => decide (g.status = GStatus.final)) = true
    · rw [elimWeekStep_fold (Bool.eq_false_iff.mpr h1) h2]
      by_cases hpk : hasPickFor season st.db pid w = true
      · have hwpmem : pid ∈ st.alive.filter fun q => hasPickFor season st.db q w :=
          List.mem_filter.mpr ⟨ha, hpk⟩
        refine Or.inl ⟨foldl_induction ⟨hg, ha, hnd, hp⟩ (fun st' a hamem hT' => ?_),
          fun _ => Or.inl (by rw [← hasPickFor_congr hp]; exact hpk)⟩
        have hane : a ≠ pid := by
          intro hEq
          subst hEq
          have hfa := (List.mem_filter.mp hamem).2
          rw [contains_true_of_mem hwpmem] at hfa
          simp at hfa
        exact elimPlayerStep_track1_of_ne hane hT'
      · have hpkf : hasPickFor season st.db pid w = false := Bool.eq_false_iff.mpr hpk
        have hnwp : pid ∉ st.alive.filter fun q => hasPickFor season st.db q w := by
          intro hmem
          rw [(List.mem_filter.mp hmem).2] at hpkf
          simp at hpkf
        have hmiss : pid ∈ st.alive.filter fun q =>
            !((st.alive.filter fun q' => hasPickFor season st.db q' w).contains q) := by
          refine List.mem_filter.mpr ⟨ha, ?_⟩
          rw [contains_false_of_not_mem hnwp]
          rfl
        have hmissnd : (st.alive.filter fun q =>
            !((st.alive.filter fun q' => hasPickFor season st.db q' w).contains q)).Nodup :=
          hnd.filter _
        obtain ⟨l1, l2, hsplit⟩ := List.append_of_mem hmiss
        rw [hsplit]
        rw [hsplit] at hmissnd
        rw [List.foldl_append, List.foldl_cons]
        have hnl1 : pid ∉ l1 := by
          intro hmem1
          rcases List.nodup_append.mp hmissnd with ⟨_, _, hdisj⟩
          exact hdisj hmem1 (List.mem_cons_self pid l2)
        have hnl2 : pid ∉ l2 := by
          rcases List.nodup_append.mp hmissnd with ⟨_, hnd2, _⟩
          exact (List.nodup_cons.mp hnd2).1
        have hT1 : ElimTrack1 X pid (l1.foldl (elimPlayerStep season w) st) :=
          foldl_induction ⟨hg, ha, hnd, hp⟩ (fun st' a hamem hT' =>
            elimPlayerStep_track1_of_ne (fun hEq => hnl1 (hEq ▸ hamem)) hT')
        obtain ⟨hg1, ha1, hnd1, hp1⟩ := hT1
        set st1 := l1.foldl (elimPlayerStep season w) st with hst1
        by_cases hnull : hasNullPickFor season st1.db pid w = true
        · rw [elimPlayerStep_of_null hnull]
          refine Or.inl ⟨foldl_induction ⟨hg1, ha1, hnd1, hp1⟩ (fun st' a hamem hT' =>
              elimPlayerStep_track1_of_ne (fun hEq => hnl2 (hEq ▸ hamem)) hT'),
            fun _ => Or.inr (Or.inl ?_)⟩
          rw [← hasNullPickFor_congr hp1]
          exact hnull
        · by_cases hpri : hasPriorPick season st1.db pid w = true
          · rw [elimPlayerStep_create (Bool.eq_false_iff.mpr hnull) hpri]
            have hT2 : ElimTrack2 season w X pid st1.db.next_pick_id
                { db := { st1.db with
                    picks := st1.db.picks ++ [syntheticPick st1.db.next_pick_id pid season w]
                    pick_results :=
                      st1.db.pick_results ++ [syntheticResult st1.db.next_pick_id]
                    next_pick_id := st1.db.next_pick_id + 1 },
                  alive := st1.alive.erase pid } := by
              refine ⟨hg1, hnd1.not_mem_erase, ?_, ?_⟩
              · unfold pidPicks
                rw [List.filter_append]
                have hone : (List.filter (fun p => p.player_id == pid)
                    [syntheticPick st1.db.next_pick_id pid season w]) =
                    [syntheticPick st1.db.next_pick_id pid season w] := by
                  simp [syntheticPick]
                rw [hone]
                exact congrArg (· ++ [syntheticPick st1.db.next_pick_id pid season w]) hp1
              · exact List.mem_append_right _ (List.mem_singleton.mpr rfl)
            exact Or.inr ⟨st1.db.next_pick_id, foldl_induction hT2 (fun st' a hamem hT' =>
              elimPlayerStep_track2_of_ne (fun hEq => hnl2 (hEq ▸ hamem)) hT')⟩
          · rw [elimPlayerStep_of_no_prior (Bool.eq_false_iff.mpr hnull)
              (Bool.eq_false_iff.mpr hpri)]
            refine Or.inl ⟨foldl_induction ⟨hg1, ha1, hnd1, hp1⟩ (fun st' a hamem hT' =>
                elimPlayerStep_track1_of_ne (fun hEq => hnl2 (hEq ▸ hamem)) hT'),
              fun _ => Or.inr (Or.inr ?_)⟩
            rw [← hasPriorPick_congr hp1]
            exact Bool.eq_false_iff.mpr hpri
    · rw [elimWeekStep_of_not_final (Bool.eq_false_iff.mpr h2)]
      refine Or.inl ⟨⟨hg, ha, hnd, hp⟩, fun hwc => ?_⟩
      exfalso
      have hfin := (weekComplete_iff.mp hwc).2
      rw [← hg] at hfin
      exact h2 hfin

theorem elim_fold_dicho {season : Int} {X : DB} {pid : Nat} :
    ∀ (ws : List Int) (st : ElimState), ElimTrack1 X pid st →
    (ElimTrack1 X pid (ws.foldl (elimWeekStep season) st) ∧
      (∀ w ∈ ws, weekComplete season w X.games = true →
        hasPickFor season X pid w = true ∨ hasNullPickFor season X pid w = true ∨
        hasPriorPick season X pid w = false)) ∨
    ∃ W' n, ElimTrack2 season W' X pid n (ws.foldl (elimWeekStep season) st) := by
  intro ws
  induction ws with
  | nil =>
    intro st hT
    exact Or.inl ⟨hT, fun w hw => absurd hw (List.not_mem_nil w)⟩
  | cons w ws ih =>
    intro st hT
    rw [List.foldl_cons]
    rcases @elimWeekStep_dicho season w X pid st hT with ⟨hT1, hfact⟩ | ⟨n, hT2⟩
    · rcases ih _ hT1 with ⟨hTF, hfacts⟩ | ⟨W', n, h2⟩
      · refine Or.inl ⟨hTF, ?_⟩
        intro w' hw' hwc
        rcases List.mem_cons.mp hw' with rfl | hw''
        · exact hfact hwc
        · exact hfacts w' hw'' hwc
      · exact Or.inr ⟨W', n, h2⟩
    · exact Or.inr ⟨w, n, foldl_induction hT2 (fun st' w' _ h' => elimWeekStep_track2 h')⟩

theorem eliminate_post (season cw : Int) (X : DB) (a : Nat) (w : Int)
    (hw : w ∈ rangeInt 1 cw)
    (hactY : ∃ p0, p0 ∈ (eliminate_missing_picks season cw X).picks ∧
      (p0.season == season) = true ∧ p0.player_id = a)
    (helimY : isEliminated season (eliminate_missing_picks season cw X) a = false)
    (hwc : weekComplete season w X.games = true)
    (hnopick : hasPickFor season (eliminate_missing_picks season cw X) a w = false)
    (hnull : hasNullPickFor season (eliminate_missing_picks season cw X) a w = false)
    (hpri : hasPriorPick season (eliminate_missing_picks season cw X) a w = true) :
    False := by
  obtain ⟨p0, hp0, hp0s, hp0id⟩ := hactY
  obtain ⟨⟨t, hYr⟩, hchar, hmono⟩ := eliminate_shape season cw X
  have hpX : p0 ∈ X.picks := by
    rcases hchar p0 hp0 with h' | ⟨_, hsyn⟩
    · exact h'
    · exfalso
      have helim : isEliminated season (eliminate_missing_picks season cw X) a = true := by
        refine List.any_eq_true.mpr ⟨p0, hp0, ?_⟩
        simp only [Bool.and_eq_true]
        refine ⟨⟨by rw [hp0id]; simp, hp0s⟩, ?_⟩
        refine List.any_eq_true.mpr ⟨syntheticResult p0.pick_id, hsyn, ?_⟩
        simp [syntheticResult]
      rw [helim] at helimY
      simp at helimY
  have hElimXf : isEliminated season X a = false := by
    cases hb : isEliminated season X a with
    | false => rfl
    | true =>
      exfalso
      have helim := isEliminated_mono hmono
        (fun r hr => by rw [hYr]; exact List.mem_append_left _ hr) hb
      rw [helim] at helimY
      simp at helimY
  have hT0 : ElimTrack1 X a
      { db := X
        alive := ((X.picks.filter fun p => p.season == season).map
          (·.player_id)).dedup.filter fun q => !(isEliminated season X q) } := by
    refine ⟨rfl, ?_, (List.nodup_dedup _).filter _, rfl⟩
    refine List.mem_filter.mpr ⟨?_, by rw [hElimXf]; rfl⟩
    exact List.mem_dedup.mpr (List.mem_map.mpr ⟨p0, List.mem_filter.mpr ⟨hpX, hp0s⟩, hp0id⟩)
  rcases elim_fold_dicho (rangeInt 1 cw) _ hT0 with ⟨hTF, hfacts⟩ | ⟨W', n, hT2⟩
  · have hpEq := hTF.2.2.2
    rw [← eliminate_eq_fold season cw X] at hpEq
    rcases hfacts w hw hwc with hc | hc | hc
    · rw [← hasPickFor_congr hpEq] at hc
      rw [hc] at hnopick
      simp at hnopick
    · rw [← hasNullPickFor_congr hpEq] at hc
      rw [hc] at hnull
      simp at hnull
    · rw [← hasPriorPick_congr hpEq] at hc
      rw [hpri] at hc
      simp at hc
  · have helim := track2_eliminated hT2
    rw [← eliminate_eq_fold season cw X] at helim
    rw [helim] at helimY
    simp at helimY

theorem eliminate_idem (season cw : Int) (X : DB) :
    eliminate_missing_picks season cw (eliminate_missing_picks season cw X) =
      eliminate_missing_picks season cw X := by
  have key : ElimFix (eliminate_missing_picks season cw X)
      ((((eliminate_missing_picks season cw X).picks.filter fun p =>
        p.season == season).map (·.player_id)).dedup.filter fun q =>
          !(isEliminated season (eliminate_missing_picks season cw X) q))
      ((rangeInt 1 cw).foldl (elimWeekStep season)
        { db := eliminate_missing_picks season cw X
          alive := (((eliminate_missing_picks season cw X).picks.filter fun p =>
            p.season == season).map (·.player_id)).dedup.filter fun q =>
              !(isEliminated season (eliminate_missing_picks season cw X) q) }) := by
    refine foldl_induction ⟨rfl, fun x hx => hx⟩ (fun st w hw hP => ?_)
    obtain ⟨hdb, hal⟩ := hP
    by_cases h1 : (st.db.games.filter fun g =>
        g.season == season && g.week == w).isEmpty = true
    · rw [elimWeekStep_of_empty h1]
      exact ⟨hdb, hal⟩
    · by_cases h2 : ((st.db.games.filter fun g => g.season == season && g.week == w).all
          fun g => decide (g.status = GStatus.final)) = true
      · rw [elimWeekStep_fold (Bool.eq_false_iff.mpr h1) h2]
        refine foldl_induction ⟨hdb, hal⟩ (fun st' a hamem hP' => ?_)
        obtain ⟨hdb', hal'⟩ := hP'
        have hain : a ∈ st.alive := (List.mem_filter.mp hamem).1
        have hanopick : hasPickFor season st.db a w = false := by
          cases hb : hasPickFor season st.db a w with
          | false => rfl
          | true =>
            exfalso
            have hfa := (List.mem_filter.mp hamem).2
            rw [contains_true_of_mem (List.mem_filter.mpr ⟨hain, hb⟩)] at hfa
            simp at hfa
        by_cases hnull : hasNullPickFor season st'.db a w = true
        · rw [elimPlayerStep_of_null hnull]
          exact ⟨hdb', hal'⟩
        · by_cases hpri : hasPriorPick season st'.db a w = true
          · exfalso
            rw [hdb'] at hnull hpri
            rw [hdb] at hanopick
            have haY := hal a hain
            have hYmem := List.mem_filter.mp haY
            have helimYf : isEliminated season (eliminate_missing_picks season cw X) a
                = false := by
              have hb2 := hYmem.2
              cases hb : isEliminated season (eliminate_missing_picks season cw X) a with
              | false => rfl
              | true =>
                rw [hb] at hb2
                simp at hb2
            have hact : ∃ p0, p0 ∈ (eliminate_missing_picks season cw X).picks ∧
                (p0.season == season) = true ∧ p0.player_id = a := by
              have hdd := List.mem_dedup.mp hYmem.1
              obtain ⟨p0, hp0f, hp0id⟩ := List.mem_map.mp hdd
              exact ⟨p0, (List.mem_filter.mp hp0f).1, (List.mem_filter.mp hp0f).2, hp0id⟩
            have hgX : st.db.games = X.games := by
              rw [hdb, eliminate_games]
            have hwc : weekComplete season w X.games = true := by
              refine weekComplete_iff.mpr ⟨?_, ?_⟩
              · rw [← hgX]
                exact Bool.eq_false_iff.mpr h1
              · rw [← hgX]
                exact h2
            exact eliminate_post season cw X a w hw hact helimYf hwc hanopick
              (Bool.eq_false_iff.mpr hnull) hpri
          · rw [elimPlayerStep_of_no_prior (Bool.eq_false_iff.mpr hnull)
              (Bool.eq_false_iff.mpr hpri)]
            exact ⟨hdb', hal'⟩
      · rw [elimWeekStep_of_not_final (Bool.eq_false_iff.mpr h2)]
        exact ⟨hdb, hal⟩
  rw [eliminate_eq_fold season cw (eliminate_missing_picks season cw X)]
  obtain ⟨h1, _⟩ := key
  exact h1

/-! ## Towards C1: assembling the full pass -/

theorem eliminate_preserves_settled (season cw now : Int) (d : DB)
    (hset : ∀ p ∈ d.picks, p.season = season → PickSettled now d p) :
    ∀ p ∈ (eliminate_missing_picks season cw d).picks, p.season = season →
      PickSettled now (eliminate_missing_picks season cw d) p := by
  obtain ⟨⟨t, hr⟩, hchar, _⟩ := eliminate_shape season cw d
  intro p hp hs
  rcases hchar p hp with hpd | ⟨hnone, _⟩
  · intro g hg hm
    rw [eliminate_games] at hg
    obtain ⟨pr, hfind, hrest⟩ := hset p hpd hs g hg hm
    refine ⟨pr, ?_, hrest⟩
    rw [hr]
    exact find?_append_left hfind
  · exact settled_of_team_none hnone

theorem update_fold_id_of_settled (season now : Int) (ws : List Int) (d : DB)
    (hnd : (d.games.map (·.game_id)).Nodup)
    (hset : ∀ p ∈ d.picks, p.season = season → PickSettled now d p) :
    ws.foldl (update_pick_results season now) d = d := by
  refine foldl_fixed (fun w _ => ?_)
  simp only [update_pick_results]
  refine fold_id_of_settled now _ d hnd (fun p hp => ?_)
  have hm := List.mem_filter.mp hp
  have hps : (p.season == season) = true := by
    have hpd := hm.2
    simp only [Bool.and_eq_true] at hpd
    exact hpd.1.1
  exact hset p hm.1 (eq_of_beq hps)

theorem process_all_of_empty (season now cw : Int) (db : DB)
    (h : (allWeeks season db).isEmpty = true) :
    process_all_eliminations season now cw db = db := by
  simp only [process_all_eliminations]
  rw [if_pos h]

theorem process_all_of_nonempty (season now cw : Int) (db : DB)
    (h : (allWeeks season db).isEmpty = false) :
    process_all_eliminations season now cw db =
      eliminate_missing_picks season cw (finalize_stuck_games season now
        ((allWeeks season db).foldl (update_pick_results season now) db)) := by
  simp only [process_all_eliminations]
  rw [if_neg (by simp [h])]

theorem process_all_settles (season now cw : Int) (db : DB)
    (hWF : WF db) (htu : TeamUnique db)
    (hne : (allWeeks season db).isEmpty = false) :
    (∀ p ∈ (process_all_eliminations season now cw db).picks, p.season = season →
      PickSettled now (process_all_eliminations season now cw db) p) ∧
    GameDone season now (process_all_eliminations season now cw db) ∧
    ((process_all_eliminations season now cw db).games.map (·.game_id)).Nodup ∧
    (∀ p ∈ db.picks, p ∈ (process_all_eliminations season now cw db).picks) := by
  rw [process_all_of_nonempty season now cw db hne]
  obtain ⟨hWF1, htu1, hpk1, hnx1, hmk1, hid1⟩ :=
    week_fold_inv season now (allWeeks season db) db hWF htu
  have hset1 : ∀ p ∈ ((allWeeks season db).foldl (update_pick_results season now) db).picks,
      p.season = season →
      PickSettled now ((allWeeks season db).foldl (update_pick_results season now) db) p := by
    intro p hp hs
    rw [hpk1] at hp
    exact week_fold_settles season now (allWeeks season db) db hWF htu p hp hs
      (Or.inl (mem_allWeeks hp hs))
  have hnd1 : (((allWeeks season db).foldl (update_pick_results season now) db).games.map
      (·.game_id)).Nodup := by
    rw [hid1]
    exact hWF.2.2.1
  have hset2 : ∀ p ∈ (finalize_stuck_games season now
      ((allWeeks season db).foldl (update_pick_results season now) db)).picks,
      p.season = season → PickSettled now (finalize_stuck_games season now
        ((allWeeks season db).foldl (update_pick_results season now) db)) p := by
    intro p hp hs
    rw [finalize_picks] at hp
    exact finalize_preserves_settled season now _ hset1 p hp hs
  have hdone2 := finalize_game_done season now
    ((allWeeks season db).foldl (update_pick_results season now) db) hnd1
  obtain ⟨_, _, hmono3⟩ := eliminate_shape season cw (finalize_stuck_games season now
    ((allWeeks season db).foldl (update_pick_results season now) db))
  have hg3 := eliminate_games season cw (finalize_stuck_games season now
    ((allWeeks season db).foldl (update_pick_results season now) db))
  refine ⟨eliminate_preserves_settled season cw now _ hset2, ?_, ?_, ?_⟩
  · intro g hg hs hh ha h4
    rw [hg3] at hg
    exact hdone2 g hg hs hh ha h4
  · rw [hg3, finalize_games_id, hid1]
    exact hWF.2.2.1
  · intro p hp
    refine hmono3 p ?_
    rw [finalize_picks, hpk1]
    exact hp

/-- **C1 (amended)**: the Elimination Engine full pass is idempotent on every
well-formed state satisfying the data-model invariant that a team appears in
at most one game per (season, week) — the spec's own §3 invariant, under
which each pick matches a unique game.  (On states violating that
invariant the pass is not idempotent — see the counterexample, where one
team plays two games of the same week and the per-pick pass and the
stuck-game finalizer disagree forever.) -/
theorem c1_amended_idempotence (season now cw : Int) (db : DB)
    (hWF : WF db) (htu : TeamUnique db) :
    process_all_eliminations season now cw (process_all_eliminations season now cw db) =
      process_all_eliminations season now cw db := by
  by_cases hempty : (allWeeks season db).isEmpty = true
  · rw [process_all_of_empty season now cw db hempty,
      process_all_of_empty season now cw db hempty]
  · have hne : (allWeeks season db).isEmpty = false := Bool.eq_false_iff.mpr hempty
    obtain ⟨hset3, hdone3, hnd3, hmono3⟩ := process_all_settles season now cw db hWF htu hne
    obtain ⟨p0, hp0, hp0s⟩ : ∃ p0, p0 ∈ db.picks ∧ p0.season = season := by
      obtain ⟨w0, hw0⟩ : ∃ w0, w0 ∈ allWeeks season db := by
        cases hmw : allWeeks season db with
        | nil =>
          rw [hmw] at hne
          simp at hne
        | cons x xs => exact ⟨x, hmw ▸ List.mem_cons_self x xs⟩
      unfold allWeeks at hw0
      rw [mem_sortAsc, List.mem_dedup] at hw0
      obtain ⟨p0, hp0f, _⟩ := List.mem_map.mp hw0
      exact ⟨p0, (List.mem_filter.mp hp0f).1, eq_of_beq (List.mem_filter.mp hp0f).2⟩
    have hne3 : (allWeeks season (process_all_eliminations season now cw db)).isEmpty =
        false := isEmpty_false_of_mem (mem_allWeeks (hmono3 p0 hp0) hp0s)
    rw [process_all_of_nonempty season now cw
      (process_all_eliminations season now cw db) hne3]
    rw [update_fold_id_of_settled season now
      (allWeeks season (process_all_eliminations season now cw db))
      (process_all_eliminations season now cw db) hnd3 hset3]
    rw [finalize_id_of_done hdone3]
    rw [process_all_of_nonempty season now cw db hne]
    exact eliminate_idem season cw (finalize_stuck_games season now
      ((allWeeks season db).foldl (update_pick_results season now) db))

/-- Witness for C1 (amended): the concrete one-game, one-pick database is
well-formed with unique matching, and the full pass is idempotent on it. -/
theorem c1_witness :
    WF dbKCFinal ∧ TeamUnique dbKCFinal ∧
    process_all_eliminations 2025 20000 4 (process_all_eliminations 2025 20000 4 dbKCFinal) =
      process_all_eliminations 2025 20000 4 dbKCFinal :=
  ⟨by unfold WF; decide, by unfold TeamUnique; decide,
    c1_amended_idempotence 2025 20000 4 dbKCFinal
      (by unfold WF; decide) (by unfold TeamUnique; decide)⟩

end SurvivorPool
